import Mathlib

/-!
# Filter / sort / highlight logic of `script.js`

A shallow embedding of the table widget's logic: the filter predicate shared by
`applyFilters` and `updateDisabledButtons`, `sortData`, `updateDisabledButtons`
and `highlightFilters`, together with the properties stated about them.

Conventions of the embedding.

* A JavaScript object is an association list from property names to values, read
  with `Obj.get` (the first binding of a name is the property, `none` is
  `undefined`); property names are assumed not to collide with members of
  `Object.prototype`.
* A record (paper or tool) is an object whose values are strings.
* The filter buttons of the page are a list of filter groups; each group carries
  the text of its `.filter-key` element and its `.filter-btn` buttons in document
  order, each button with its text and the CSS classes the script reads or writes.
  A button is referred to by its position (group index, index in the group).
* A Number produced by `parseInt` is an integer-valued double or an infinity. It is
  represented by an integer: a finite double by its exact value, `+Infinity` by
  2^1024 and `-Infinity` by -2^1024, which keeps the order of Numbers.
* `String.prototype.toLowerCase` is a parameter of `sortData`: every statement
  about sorting holds for any case mapping.
* `Array.prototype.sort` is the stable sort the language standard prescribes.
-/

namespace Script

/-! ## Objects -/

/-- A JavaScript object with string property names. -/
abbrev Obj (β : Type) := List (String × β)

/-- Property read `o[k]`; `none` stands for `undefined`. -/
def Obj.get {β : Type} (o : Obj β) (k : String) : Option β :=
  match o with
  | [] => none
  | (k', v) :: rest => if k' = k then some v else Obj.get rest k

/-- The own property names, `Object.keys(o)`: each name once, in insertion order. -/
def Obj.keys {β : Type} (o : Obj β) : List String :=
  match o with
  | [] => []
  | (k, _) :: rest => k :: (Obj.keys rest).filter fun k' => k' ≠ k

/-- Property write `o[k] = v`: replaces the binding of `k`, or appends a new one. -/
def Obj.set {β : Type} (o : Obj β) (k : String) (v : β) : Obj β :=
  match o with
  | [] => [(k, v)]
  | (k', v') :: rest => if k' = k then (k', v) :: rest else (k', v') :: Obj.set rest k v

/-- Property removal `delete o[k]`. -/
def Obj.delete {β : Type} (o : Obj β) (k : String) : Obj β :=
  o.filter fun p => p.1 ≠ k

/-- A paper or a tool: field name to string value. -/
abbrev Record := Obj String

/-- The `activeFilters` / `appliedFilters` object: field name to the texts of the
active buttons of that field. -/
abbrev Selection := Obj (List String)

/-! ## The filter buttons -/

/-- One `.filter-btn` element: its text and the classes the script uses. -/
structure FilterBtn where
  textContent : String
  active : Bool
  buttonDisabled : Bool
  filterNotApplicable : Bool
  hoverHighlight : Bool
  title : String
  deriving DecidableEq, Repr

/-- One `.filter-group` element: the text of its `.filter-key` and its buttons. -/
structure FilterGroup where
  filterKey : String
  buttons : List FilterBtn
  deriving DecidableEq, Repr

/-- The filter part of the page: the `.filter-group` elements in document order. -/
abbrev Document := List FilterGroup

/-- A freshly created button (`createFilters`): only the text is set. -/
def mkBtn (text : String) : FilterBtn :=
  ⟨text, false, false, false, false, ""⟩

/-- A button of the page: index of its group, index within the group. -/
abbrev BtnRef := Nat × Nat

/-- The button a reference points to. -/
def getBtn (doc : Document) (ref : BtnRef) : Option FilterBtn :=
  match doc[ref.1]? with
  | some filterGroup => filterGroup.buttons[ref.2]?
  | none => none

/-- Text of the `.filter-key` of the group a button lives in
(`button.closest('.filter-group').querySelector('.filter-key').textContent`). -/
def btnKey (doc : Document) (ref : BtnRef) : Option String :=
  match doc[ref.1]? with
  | some filterGroup => some filterGroup.filterKey
  | none => none

/-- Update of one button in place. -/
def modifyBtn (doc : Document) (ref : BtnRef) (f : FilterBtn → FilterBtn) : Document :=
  List.modify
    (fun filterGroup => { filterGroup with buttons := List.modify f ref.2 filterGroup.buttons })
    ref.1 doc

/-- Result of `document.querySelectorAll('.filter-btn')`: all buttons, in document order. -/
def allFilterBtns (doc : Document) : List BtnRef :=
  doc.enum.flatMap fun ig => (List.range ig.2.buttons.length).map fun j => (ig.1, j)

/-- Texts of the `.filter-btn.active` buttons of a group. -/
def activeValues (filterGroup : FilterGroup) : List String :=
  (filterGroup.buttons.filter fun btn => btn.active).map fun btn => btn.textContent

/-- The reduction over all filter groups that builds `activeFilters`
(`applyFilters`, lines 321-332) and `appliedFilters` (`updateDisabledButtons`,
lines 430-437). -/
def collectActiveFilters (doc : Document) : Selection :=
  doc.foldl
    (fun acc filterGroup =>
      if (activeValues filterGroup).length > 0 then
        Obj.set acc filterGroup.filterKey (activeValues filterGroup)
      else acc)
    []

/-! ## Filtering -/

/-- The callback of `filter` (lines 336-341, 346-351, 441-445, 449-453): every key
of the selection is either missing from the record or has a selected value. -/
def passesFilters (activeFilters : Selection) (paper : Record) : Bool :=
  (Obj.keys activeFilters).all fun key =>
    match Obj.get paper key with
    | none => true
    | some value =>
      match Obj.get activeFilters key with
      | some selected => selected.contains value
      | none => false

/-- The expression `originalResearchData.filter(...)` / `originalToolsData.filter(...)`. -/
def filterRecords (activeFilters : Selection) (data : List Record) : List Record :=
  data.filter (passesFilters activeFilters)

/-- The selection constrains a field: the field is one of its keys. -/
def constrains (S : Selection) (field : String) : Prop :=
  ∃ selected, Obj.get S field = some selected

/-- The pair (field, value) is selected. -/
def selects (S : Selection) (field value : String) : Prop :=
  ∃ selected, Obj.get S field = some selected ∧ value ∈ selected

/-! ## Sorting -/

/-- UTF-16 code units of a string: what `<` on strings compares. -/
def codeUnits (s : String) : List Nat :=
  s.toList.flatMap fun c =>
    if c.toNat < 65536 then [c.toNat]
    else [55296 + (c.toNat - 65536) / 1024, 56320 + (c.toNat - 65536) % 1024]

/-- Lexicographic comparison of code-unit sequences. -/
def unitsLt : List Nat → List Nat → Bool
  | [], [] => false
  | [], _ :: _ => true
  | _ :: _, [] => false
  | a :: as, b :: bs => if a < b then true else if b < a then false else unitsLt as bs

/-- The operator `<` on two strings. -/
def strLt (a b : String) : Bool := unitsLt (codeUnits a) (codeUnits b)

/-- White space and line terminators skipped by `parseInt`. -/
def isWhiteSpace (c : Char) : Bool :=
  [9, 10, 11, 12, 13, 32, 160, 5760, 8192, 8193, 8194, 8195, 8196, 8197, 8198, 8199, 8200,
    8201, 8202, 8232, 8233, 8239, 8287, 12288, 65279].contains c.toNat

/-- Value of a character as a digit (`0-9`, `a-z`, `A-Z`). -/
def digitValue (c : Char) : Option Nat :=
  if 48 ≤ c.toNat ∧ c.toNat ≤ 57 then some (c.toNat - 48)
  else if 97 ≤ c.toNat ∧ c.toNat ≤ 122 then some (c.toNat - 87)
  else if 65 ≤ c.toNat ∧ c.toNat ≤ 90 then some (c.toNat - 55)
  else none

/-- Value of a character as a digit of the given radix. -/
def radixDigit (radix : Nat) (c : Char) : Option Nat :=
  match digitValue c with
  | some d => if d < radix then some d else none
  | none => none

/-- The longest run of digits of the given radix at the start of the text. -/
def leadingDigits (radix : Nat) : List Char → List Nat
  | [] => []
  | c :: cs =>
    match radixDigit radix c with
    | some d => d :: leadingDigits radix cs
    | none => []

/-- The representation of `+Infinity`: 2^1024, above every finite double. -/
def infinity : Nat :=
  179769313486231590772930519078902473361797697894230657273430081157732675805500963132708477322407536021120113879871393357658789768814416622492847430639474124377767893424865485276302219601246094119453082952085005768838150682342462881473913110540827237163350510684586298239947245938479716304835356329624224137216

/-- Number of low bits to drop from `m` so that at most 53 bits remain (the first
argument bounds the recursion). -/
def excessBits : Nat → Nat → Nat
  | 0, _ => 0
  | fuel + 1, m => if m < 9007199254740992 then 0 else excessBits fuel (m / 2) + 1

/-- The Number value of a natural number, computed from its exact value: the
nearest double, ties to the even significand, and `infinity` when that rounding
reaches 2^1024. -/
def numberOfNat (m : Nat) : Nat :=
  let e := excessBits m m
  let q := m / 2 ^ e
  let r := m % 2 ^ e
  let q' := if 2 * r > 2 ^ e ∨ (2 * r = 2 ^ e ∧ q % 2 = 1) then q + 1 else q
  min (q' * 2 ^ e) infinity

/-- The Number value of an integer. -/
def numberOfInt (z : Int) : Int :=
  if z < 0 then -(numberOfNat z.natAbs : Int) else (numberOfNat z.natAbs : Int)

/-- The built-in `parseInt(string)` without a radix argument: the Number value of
the integer the text denotes; `none` is `NaN`. -/
def parseInt (string : String) : Option Int :=
  let s := string.toList.dropWhile isWhiteSpace
  let signed : Int × List Char :=
    match s with
    | '-' :: rest => (-1, rest)
    | '+' :: rest => (1, rest)
    | _ => (1, s)
  let based : Nat × List Char :=
    match signed.2 with
    | '0' :: 'x' :: rest => (16, rest)
    | '0' :: 'X' :: rest => (16, rest)
    | _ => (10, signed.2)
  match leadingDigits based.1 based.2 with
  | [] => none
  | d :: ds =>
    some (numberOfInt (signed.1 * ((d :: ds).foldl (fun acc x => acc * based.1 + x) 0 : Nat)))

/-- The built-in `Array.prototype.sort(comparefn)` on the elements of an array: a
stable sort, an element staying before another whenever `comparefn` is not
positive on them. -/
def arraySort {α : Type} (comparefn : α → α → Int) (arr : List α) : List α :=
  arr.insertionSort fun a b => comparefn a b ≤ 0

/-- The comparator passed to `sort` in `sortData` (lines 379-392). -/
def compareRecords (toLowerCase : String → String) (column : String) (ascending : Bool)
    (a b : Record) : Int :=
  let valueA := (Obj.get a column).getD ""
  let valueB := (Obj.get b column).getD ""
  if column = "Year" then
    let valueA := (parseInt valueA).getD 0
    let valueB := (parseInt valueB).getD 0
    (if valueA < valueB then -1 else if valueA > valueB then 1 else 0) *
      (if ascending then 1 else -1)
  else
    let valueA := toLowerCase valueA
    let valueB := toLowerCase valueB
    (if strLt valueA valueB then -1 else if strLt valueB valueA then 1 else 0) *
      (if ascending then 1 else -1)

/-- The value returned by `sortData(data, column, ascending)`. -/
def sortData (toLowerCase : String → String) (data : List Record) (column : String)
    (ascending : Bool) : List Record :=
  arraySort (compareRecords toLowerCase column ascending) data

/-- The arrays of records allocated so far; an array reference is an index. -/
abbrev Heap := List (List Record)

/-- Elements of the array behind a reference. -/
def Heap.read (h : Heap) (ref : Nat) : List Record := h.getD ref []

/-- The call `data.slice()`: allocates a new array with the same elements. -/
def Heap.slice (h : Heap) (data : Nat) : Heap × Nat :=
  (h ++ [Heap.read h data], h.length)

/-- The call `arr.sort(comparefn)`: sorts the array in place. -/
def Heap.sort (h : Heap) (arr : Nat) (comparefn : Record → Record → Int) : Heap :=
  h.set arr (arraySort comparefn (Heap.read h arr))

/-- The function `sortData` on array references: `data.slice().sort(...)`. Returns
the heap after the call and the reference of the array it returns. -/
def sortDataRef (toLowerCase : String → String) (h : Heap) (data : Nat) (column : String)
    (ascending : Bool) : Heap × Nat :=
  let copy := Heap.slice h data
  (Heap.sort copy.1 copy.2 (compareRecords toLowerCase column ascending), copy.2)

/-- The numeric sort key of a record for the column `Year`: `parseInt(value) || 0`. -/
def yearKey (r : Record) : Int :=
  (parseInt ((Obj.get r "Year").getD "")).getD 0

/-- A sort key: a Number for `Year`, the code units of the lower-cased text otherwise. -/
inductive SortKey where
  | number (n : Int)
  | text (units : List Nat)
  deriving DecidableEq, Repr

/-- The sort key of a record for a column. -/
def sortKey (toLowerCase : String → String) (column : String) (r : Record) : SortKey :=
  if column = "Year" then SortKey.number ((parseInt ((Obj.get r column).getD "")).getD 0)
  else SortKey.text (codeUnits (toLowerCase ((Obj.get r column).getD "")))

/-- A case mapping for concrete evaluations: lower-cases the letters `A-Z`. -/
def asciiLower (s : String) : String := String.mk (s.toList.map Char.toLower)

/-- The order in which `sortData` may leave two records: `a` may stay before `b`. -/
def mayPrecede (toLowerCase : String → String) (column : String) (ascending : Bool)
    (a b : Record) : Prop :=
  compareRecords toLowerCase column ascending a b ≤ 0

instance (toLowerCase : String → String) (column : String) (ascending : Bool) :
    DecidableRel (mayPrecede toLowerCase column ascending) :=
  fun a b => inferInstanceAs (Decidable (compareRecords toLowerCase column ascending a b ≤ 0))

/-! ## Availability of the buttons -/

/-- The call `button.classList.toggle('active')`. -/
def toggleActive (btn : FilterBtn) : FilterBtn := { btn with active := !btn.active }

/-- The literal `toolsOnlyFields` (line 463). -/
def toolsOnlyFields : List String :=
  ["Meeting Task", "Team Size", "Meeting Duration", "Meeting Environment", "Outcome"]

/-- The body of the `forEach` of `updateDisabledButtons` for one button
(lines 421-481). `activeTab` is the id of the `.tab-content.active` element. -/
def updateButton (originalResearchData originalToolsData : List Record) (activeTab : String)
    (doc : Document) (button : BtnRef) : Document :=
  match btnKey doc button, getBtn doc button with
  | some key, some btn =>
    let isActive := btn.active
    let doc1 := modifyBtn doc button toggleActive
    let appliedFilters := collectActiveFilters doc1
    let filteredResearchData := filterRecords appliedFilters originalResearchData
    let filteredToolsData := filterRecords appliedFilters originalToolsData
    let totalResults := filteredResearchData.length + filteredToolsData.length
    let doc2 := modifyBtn doc1 button toggleActive
    let isToolsOnlyFilter := toolsOnlyFields.contains key
    let isCurrentlyOnToolsTab := activeTab == "tools-tab"
    if totalResults == 0 && !isActive then
      modifyBtn doc2 button fun b =>
        { b with buttonDisabled := true, filterNotApplicable := false, title := "" }
    else if isToolsOnlyFilter && isCurrentlyOnToolsTab && isActive then
      modifyBtn doc2 button fun b =>
        { b with filterNotApplicable := true, buttonDisabled := false,
                 title := "This filter does not apply to Practice Tools" }
    else
      modifyBtn doc2 button fun b =>
        { b with buttonDisabled := false, filterNotApplicable := false, title := "" }
  | _, _ => doc

/-- The function `updateDisabledButtons` (lines 417-482). -/
def updateDisabledButtons (originalResearchData originalToolsData : List Record)
    (activeTab : String) (doc : Document) : Document :=
  (allFilterBtns doc).foldl (updateButton originalResearchData originalToolsData activeTab) doc

/-- The selection with the pair (field, value) of a button toggled, in the words
of the availability contract: the value is added to the field when the button is
inactive and removed from it when the button is active; a field left with no
selected value is dropped. -/
def toggleSelection (S : Selection) (field value : String) (isActive : Bool) : Selection :=
  if isActive then
    match Obj.get S field with
    | none => S
    | some selected =>
      if (selected.filter fun v => v ≠ value) = [] then Obj.delete S field
      else Obj.set S field (selected.filter fun v => v ≠ value)
  else
    match Obj.get S field with
    | none => Obj.set S field [value]
    | some selected => Obj.set S field (selected ++ [value])

/-- No two filter groups of the page share a key: a field has one group. -/
abbrev DistinctKeys (doc : Document) : Prop :=
  (doc.map fun g => g.filterKey).Nodup

/-- The button texts of every group are distinct. -/
abbrev DistinctTexts (doc : Document) : Prop :=
  ∀ g ∈ doc, (g.buttons.map fun btn => btn.textContent).Nodup

/-- What the filter reads of a button: its text and whether it is active. -/
def btnView (b : FilterBtn) : String × Bool := (b.textContent, b.active)

/-- What the filter reads of the page: keys, button texts and active states. -/
def activeView (doc : Document) : List (String × List (String × Bool)) :=
  doc.map fun g => (g.filterKey, g.buttons.map btnView)

/-- The value of `totalResults` computed for a button (lines 428-457): the number
of papers plus the number of tools that pass with the button toggled. -/
def toggledTotal (originalResearchData originalToolsData : List Record) (doc : Document)
    (button : BtnRef) : Nat :=
  (filterRecords (collectActiveFilters (modifyBtn doc button toggleActive))
      originalResearchData).length +
    (filterRecords (collectActiveFilters (modifyBtn doc button toggleActive))
      originalToolsData).length

/-! ## Highlighting -/

/-- The pieces of a text between occurrences of a separator character. -/
def splitChars (sep : Char) : List Char → List (List Char)
  | [] => [[]]
  | c :: cs =>
    if c = sep then [] :: splitChars sep cs
    else
      match splitChars sep cs with
      | [] => [[c]]
      | t :: ts => (c :: t) :: ts

/-- The call `value.split(sep)` for a one-character separator. -/
def split (value : String) (sep : Char) : List String :=
  (splitChars sep value.toList).map String.mk

/-- The call `btn.classList.add('hover-highlight')`. -/
def addHighlight (btn : FilterBtn) : FilterBtn := { btn with hoverHighlight := true }

/-- The call `btn.classList.remove('hover-highlight')`. -/
def removeHighlight (btn : FilterBtn) : FilterBtn := { btn with hoverHighlight := false }

/-- The call `btnKeyArray.set(btn, v)` on the `Map` of the comma branch. -/
def mapSet (m : List (BtnRef × Bool)) (k : BtnRef) (v : Bool) : List (BtnRef × Bool) :=
  match m with
  | [] => [(k, v)]
  | (k', v') :: rest => if k' = k then (k', v) :: rest else (k', v') :: mapSet rest k v

/-- The test `btnKey === key && btn.textContent === value`. -/
def matchesBtn (doc : Document) (key value : String) (btn : BtnRef) : Bool :=
  match btnKey doc btn, getBtn doc btn with
  | some k, some b => k == key && b.textContent == value
  | _, _ => false

/-- One call of the callback given to `find` in the comma branch (lines 507-524):
it records the test for the button in the map, then highlights every button the
map holds `true` for. It returns nothing, so `find` visits every button. -/
def tokenCallback (key token : String) (st : List (BtnRef × Bool) × Document) (btn : BtnRef) :
    List (BtnRef × Bool) × Document :=
  let valuebtnKey := matchesBtn st.2 key token btn
  let btnKeyArray := mapSet st.1 btn valuebtnKey
  (btnKeyArray,
    btnKeyArray.foldl (fun d entry => if entry.2 then modifyBtn d entry.1 addHighlight else d)
      st.2)

/-- One round of the `for` loop over the split values (lines 501-533). -/
def highlightToken (allBtns : List BtnRef) (key : String) (doc : Document) (token : String) :
    Document :=
  (allBtns.foldl (tokenCallback key token) ([], doc)).2

/-- The body of `Object.keys(rowData).forEach` (lines 493-567) for one key. -/
def highlightField (allBtns : List BtnRef) (rowData : Record) (doc : Document) (key : String) :
    Document :=
  match Obj.get rowData key with
  | none => doc
  | some value =>
    let doc1 :=
      if value.toList.contains ',' then
        (split value ',').foldl (highlightToken allBtns key) doc
      else doc
    match allBtns.find? (matchesBtn doc1 key value) with
    | some filterBtn => modifyBtn doc1 filterBtn addHighlight
    | none => doc1

/-- The function `highlightFilters` (lines 485-568). -/
def highlightFilters (doc : Document) (rowData : Record) : Document :=
  let allBtns := allFilterBtns doc
  let doc0 := allBtns.foldl (fun d btn => modifyBtn d btn removeHighlight) doc
  (Obj.keys rowData).foldl (highlightField allBtns rowData) doc0

/-- The button at a position carries the class `hover-highlight`. -/
def isHighlighted (doc : Document) (q : BtnRef) : Prop :=
  ∃ b, getBtn doc q = some b ∧ b.hoverHighlight = true

/-- Two states of the page with the same buttons, keys and button texts. -/
def SameText (d d' : Document) : Prop :=
  ∀ q, btnKey d q = btnKey d' q ∧
    (getBtn d q).map (fun b => b.textContent) = (getBtn d' q).map (fun b => b.textContent)

/-- What the body of `forEach` marks for one key of the row: the buttons matching
a piece of a value with a comma, and the first button matching the whole value. -/
def fieldMarks (doc : Document) (allBtns : List BtnRef) (rowData : Record) (key : String)
    (q : BtnRef) : Prop :=
  ∃ value, Obj.get rowData key = some value ∧
    ((value.toList.contains ',' = true ∧
        ∃ token ∈ split value ',', q ∈ allBtns ∧ matchesBtn doc key token q = true) ∨
      allBtns.find? (matchesBtn doc key value) = some q)

/-! ## Rendering, applying the filters, resetting -/

/-- The object `currentSort` (lines 194-198); `none` is `null`. -/
structure SortState where
  tableId : Option String
  column : Option String
  ascending : Bool
  deriving DecidableEq, Repr

/-- The state of the page that `renderTable`, `applyFilters` and the reset handler
read and write: the filter buttons, the body of each table (the records rendered,
one row each, in order; the markup of the cells is not modelled), the text of the
two count elements (`none` when the page has no such element) and whether each
no-data message is shown. -/
structure Page where
  doc : Document
  papersBody : List Record
  toolsBody : List Record
  researchCount : Option String
  toolsCount : Option String
  noDataMessage : Bool
  noDataMessageTools : Bool
  deriving DecidableEq, Repr

/-- The text `renderTable` gives the count element (lines 71-80). -/
def countText (isTools : Bool) (shown totalCount : Nat) : String :=
  if shown = 0 then "No " ++ (if isTools then "tool" else "paper") ++ "s found"
  else if shown = totalCount then
    "Showing all " ++ toString shown ++ " " ++ (if isTools then "tools" else "papers")
  else
    "Showing " ++ toString shown ++ " of " ++ toString totalCount ++ " " ++
      (if isTools then "tools" else "papers")

/-- Building the markup of a row succeeds: `tool.Link.slice(...)` (line 99) and
`paper.DOI_URL.startsWith(...)` (line 109) throw when the field is undefined. -/
def rowRenders (isTools : Bool) (r : Record) : Bool :=
  if isTools then (Obj.get r "Link").isSome else (Obj.get r "DOI_URL").isSome

/-- The function `renderTable(data, tableId, isTools)` (lines 62-152); `none` when
a `TypeError` escapes. The listeners it attaches and the sort arrows of the
headers are not part of the state. -/
def renderTable (originalResearchData originalToolsData : List Record) (data : List Record)
    (tableId : String) (isTools : Bool) (page : Page) : Option Page :=
  let totalCount := if isTools then originalToolsData.length else originalResearchData.length
  let page1 : Page :=
    if isTools then
      { page with
        toolsCount := page.toolsCount.map fun _ => countText isTools data.length totalCount }
    else
      { page with
        researchCount := page.researchCount.map fun _ => countText isTools data.length totalCount }
  let page2 : Page :=
    if isTools then { page1 with noDataMessageTools := data.length == 0 }
    else { page1 with noDataMessage := data.length == 0 }
  if data.all (rowRenders isTools) then
    if tableId = "papers-table" then some { page2 with papersBody := data }
    else if tableId = "tools-table" then some { page2 with toolsBody := data }
    else none
  else none

/-- The value of `sortedResearchData` in `applyFilters` (lines 357-361). -/
def sortedResearchData (toLowerCase : String → String) (currentSort : SortState)
    (filteredResearchData : List Record) : List Record :=
  match currentSort.column with
  | some column =>
    if currentSort.tableId = some "papers-table" ∧ column ≠ "" then
      sortData toLowerCase filteredResearchData column currentSort.ascending
    else sortData toLowerCase filteredResearchData "Author" true
  | none => sortData toLowerCase filteredResearchData "Author" true

/-- The value of `sortedToolsData` in `applyFilters` (lines 363-367). -/
def sortedToolsData (toLowerCase : String → String) (currentSort : SortState)
    (filteredToolsData : List Record) : List Record :=
  match currentSort.column with
  | some column =>
    if currentSort.tableId = some "tools-table" ∧ column ≠ "" then
      sortData toLowerCase filteredToolsData column currentSort.ascending
    else sortData toLowerCase filteredToolsData "Name" true
  | none => sortData toLowerCase filteredToolsData "Name" true

/-- The function `applyFilters` (lines 320-375); `none` when a `TypeError` escapes
from `renderTable`. -/
def applyFilters (toLowerCase : String → String)
    (originalResearchData originalToolsData : List Record) (currentSort : SortState)
    (activeTab : String) (page : Page) : Option Page :=
  let activeFilters := collectActiveFilters page.doc
  let filteredResearchData := filterRecords activeFilters originalResearchData
  let filteredToolsData := filterRecords activeFilters originalToolsData
  match renderTable originalResearchData originalToolsData
      (sortedResearchData toLowerCase currentSort filteredResearchData) "papers-table" false
      page with
  | none => none
  | some page1 =>
    match renderTable originalResearchData originalToolsData
        (sortedToolsData toLowerCase currentSort filteredToolsData) "tools-table" true page1 with
    | none => none
    | some page2 =>
      some { page2 with
        doc := updateDisabledButtons originalResearchData originalToolsData activeTab page2.doc }

/-- The call `btn.classList.remove('active')`. -/
def removeActive (btn : FilterBtn) : FilterBtn := { btn with active := false }

/-- The buttons matched by `document.querySelectorAll('.filter-btn.active')`. -/
def activeFilterBtns (doc : Document) : List BtnRef :=
  (allFilterBtns doc).filter fun ref =>
    match getBtn doc ref with
    | some btn => btn.active
    | none => false

/-- The click handler of the reset button (lines 624-632). -/
def resetFilters (toLowerCase : String → String)
    (originalResearchData originalToolsData : List Record) (currentSort : SortState)
    (activeTab : String) (page : Page) : Option Page :=
  applyFilters toLowerCase originalResearchData originalToolsData currentSort activeTab
    { page with
      doc := (activeFilterBtns page.doc).foldl (fun d btn => modifyBtn d btn removeActive) page.doc }

/-! ## Basic facts about objects and the filter predicate -/

theorem Obj.mem_keys_iff {β : Type} (o : Obj β) (k : String) :
    k ∈ Obj.keys o ↔ k ∈ o.map Prod.fst := by
  induction o with
  | nil => simp [Obj.keys]
  | cons p rest ih =>
    obtain ⟨k', v'⟩ := p
    simp only [Obj.keys, List.mem_cons, List.map_cons, List.mem_filter, ih]
    by_cases h : k = k'
    · simp [h]
    · simp [h]

theorem Obj.get_isSome_iff_mem_keys {β : Type} (o : Obj β) (k : String) :
    (∃ v, Obj.get o k = some v) ↔ k ∈ Obj.keys o := by
  rw [Obj.mem_keys_iff]
  induction o with
  | nil => simp [Obj.get]
  | cons p rest ih =>
    obtain ⟨k', v'⟩ := p
    simp only [List.map_cons, List.mem_cons] at ih ⊢
    unfold Obj.get
    by_cases h : k' = k
    · simp [h]
    · simp only [h, if_false]
      rw [ih]
      constructor
      · intro hm; exact Or.inr hm
      · rintro (hm | hm)
        · exact absurd hm.symm h
        · exact hm

/-- The filter predicate, read as a proposition over the selection's entries. -/
theorem passesFilters_iff (S : Selection) (r : Record) :
    passesFilters S r = true ↔
      ∀ F selected, Obj.get S F = some selected →
        (Obj.get r F = none ∨ ∃ v, Obj.get r F = some v ∧ v ∈ selected) := by
  unfold passesFilters
  rw [List.all_eq_true]
  constructor
  · intro h F selected hS
    have hk : F ∈ Obj.keys S := (Obj.get_isSome_iff_mem_keys S F).1 ⟨selected, hS⟩
    have := h F hk
    cases hr : Obj.get r F with
    | none => exact Or.inl rfl
    | some v =>
      right
      simp only [hr, hS] at this
      exact ⟨v, rfl, by simpa using this⟩
  · intro h key hk
    obtain ⟨selected, hS⟩ := (Obj.get_isSome_iff_mem_keys S key).2 hk
    cases hr : Obj.get r key with
    | none => rfl
    | some v =>
      rcases h key selected hS with h1 | ⟨w, hw, hmem⟩
      · simp [hr] at h1
      · simp only [hS]
        rw [hr] at hw
        cases hw
        simpa using hmem

/-! ## Claims on filtering -/

/-- C1: for every dataset and every selection, a record is kept by the filter iff
for every field constrained by the selection the record either lacks the field or
carries one of the selected values; the filtered result is exactly the records of
the dataset with that property, in their original order. -/
theorem C1_filter_characterisation (S : Selection) (data : List Record) :
    (∀ r, passesFilters S r = true ↔
      ∀ F selected, Obj.get S F = some selected →
        (Obj.get r F = none ∨ ∃ v, Obj.get r F = some v ∧ v ∈ selected)) ∧
    (∀ keep : Record → Bool,
      (∀ r, keep r = true ↔
        ∀ F selected, Obj.get S F = some selected →
          (Obj.get r F = none ∨ ∃ v, Obj.get r F = some v ∧ v ∈ selected)) →
      filterRecords S data = data.filter keep) := by
  refine ⟨passesFilters_iff S, ?_⟩
  intro keep hkeep
  unfold filterRecords
  apply List.filter_congr
  intro r _
  rw [Bool.eq_iff_iff, hkeep r, passesFilters_iff]

/-! ## Facts about the comparator and the sort -/

theorem unitsLt_irrefl (a : List Nat) : unitsLt a a = false := by
  induction a with
  | nil => rfl
  | cons x xs ih => simp [unitsLt, ih]

theorem unitsLt_asymm : ∀ a b : List Nat, unitsLt a b = true → unitsLt b a = false
  | [], [] => by simp [unitsLt]
  | [], _ :: _ => by simp [unitsLt]
  | _ :: _, [] => by simp [unitsLt]
  | x :: xs, y :: ys => by
    intro h
    unfold unitsLt at h ⊢
    by_cases h1 : x < y
    · have h2 : ¬ y < x := by omega
      simp [h1, h2]
    · by_cases h2 : y < x
      · simp [h1, h2] at h
      · simp only [h1, h2, if_false] at h ⊢
        exact unitsLt_asymm xs ys h

theorem unitsLt_negTrans : ∀ a b c : List Nat,
    unitsLt a b = false → unitsLt b c = false → unitsLt a c = false
  | [], [], _ => by intro _ h; exact h
  | [], _ :: _, _ => by simp [unitsLt]
  | _ :: _, [], [] => by simp [unitsLt]
  | _ :: _, [], _ :: _ => by simp [unitsLt]
  | _ :: _, _ :: _, [] => by simp [unitsLt]
  | x :: xs, y :: ys, z :: zs => by
    intro h1 h2
    unfold unitsLt at h1 h2 ⊢
    by_cases hxy : x < y
    · simp [hxy] at h1
    · by_cases hyz : y < z
      · simp [hyz] at h2
      · have hxz : ¬ x < z := by omega
        simp only [hxy, hyz, hxz, if_false] at h1 h2 ⊢
        by_cases hyx : y < x
        · have hzx : z < x := by omega
          simp [hzx]
        · by_cases hzy : z < y
          · have hzx : z < x := by omega
            simp [hzx]
          · have hzx : ¬ z < x := by omega
            simp only [hyx, hzy, hzx, if_false] at h1 h2 ⊢
            exact unitsLt_negTrans xs ys zs h1 h2

theorem unitsLt_antisymm : ∀ a b : List Nat,
    unitsLt a b = false → unitsLt b a = false → a = b
  | [], [] => by simp
  | [], _ :: _ => by simp [unitsLt]
  | _ :: _, [] => by simp [unitsLt]
  | x :: xs, y :: ys => by
    intro h1 h2
    unfold unitsLt at h1 h2
    by_cases hxy : x < y
    · simp [hxy] at h1
    · by_cases hyx : y < x
      · simp [hyx] at h2
      · simp only [hxy, hyx, if_false] at h1 h2
        have hEq : x = y := by omega
        rw [hEq, unitsLt_antisymm xs ys h1 h2]

theorem mayPrecede_year (toLowerCase : String → String) (ascending : Bool) (a b : Record) :
    mayPrecede toLowerCase "Year" ascending a b ↔
      if ascending then yearKey a ≤ yearKey b else yearKey b ≤ yearKey a := by
  unfold mayPrecede compareRecords yearKey
  cases ascending <;> simp only [if_true] <;> split_ifs <;> omega

theorem mayPrecede_text (toLowerCase : String → String) (column : String) (ascending : Bool)
    (hc : column ≠ "Year") (a b : Record) :
    mayPrecede toLowerCase column ascending a b ↔
      if ascending then
        strLt (toLowerCase ((Obj.get b column).getD ""))
          (toLowerCase ((Obj.get a column).getD "")) = false
      else
        strLt (toLowerCase ((Obj.get a column).getD ""))
          (toLowerCase ((Obj.get b column).getD "")) = false := by
  unfold mayPrecede compareRecords
  simp only [hc, if_false]
  cases hab : strLt (toLowerCase ((Obj.get a column).getD ""))
      (toLowerCase ((Obj.get b column).getD "")) <;>
    cases hba : strLt (toLowerCase ((Obj.get b column).getD ""))
      (toLowerCase ((Obj.get a column).getD "")) <;>
    cases ascending <;> simp
  have := unitsLt_asymm _ _ hab
  unfold strLt at hba
  rw [this] at hba
  cases hba

theorem strLt_total (x y : String) : strLt x y = false ∨ strLt y x = false := by
  cases h : strLt x y
  · exact Or.inl rfl
  · exact Or.inr (unitsLt_asymm _ _ h)

theorem mayPrecede_total (toLowerCase : String → String) (column : String) (ascending : Bool)
    (a b : Record) :
    mayPrecede toLowerCase column ascending a b ∨ mayPrecede toLowerCase column ascending b a := by
  by_cases hc : column = "Year"
  · subst hc
    cases ascending
    · simp only [mayPrecede_year, Bool.false_eq_true, if_false]
      exact le_total _ _
    · simp only [mayPrecede_year, if_true]
      exact le_total _ _
  · cases ascending
    · simp only [mayPrecede_text _ _ _ hc, Bool.false_eq_true, if_false]
      exact strLt_total _ _
    · simp only [mayPrecede_text _ _ _ hc, if_true]
      exact strLt_total _ _

theorem mayPrecede_trans (toLowerCase : String → String) (column : String) (ascending : Bool)
    (a b c : Record) (hab : mayPrecede toLowerCase column ascending a b)
    (hbc : mayPrecede toLowerCase column ascending b c) :
    mayPrecede toLowerCase column ascending a c := by
  by_cases hc : column = "Year"
  · subst hc
    cases ascending
    · simp only [mayPrecede_year, Bool.false_eq_true, if_false] at hab hbc ⊢
      exact le_trans hbc hab
    · simp only [mayPrecede_year, if_true] at hab hbc ⊢
      exact le_trans hab hbc
  · cases ascending
    · simp only [mayPrecede_text _ _ _ hc, Bool.false_eq_true, if_false] at hab hbc ⊢
      exact unitsLt_negTrans _ _ _ hab hbc
    · simp only [mayPrecede_text _ _ _ hc, if_true] at hab hbc ⊢
      exact unitsLt_negTrans _ _ _ hbc hab

/-- Descending order is ascending order read backwards. -/
theorem mayPrecede_desc (toLowerCase : String → String) (column : String) (a b : Record) :
    mayPrecede toLowerCase column false a b ↔ mayPrecede toLowerCase column true b a := by
  by_cases hc : column = "Year"
  · subst hc
    simp only [mayPrecede_year, Bool.false_eq_true, if_false, if_true]
  · simp only [mayPrecede_text _ _ _ hc, Bool.false_eq_true, if_false, if_true]

/-- Two records that may each precede the other have the same sort key. -/
theorem sortKey_eq_of_mayPrecede (toLowerCase : String → String) (column : String)
    (a b : Record) (hab : mayPrecede toLowerCase column true a b)
    (hba : mayPrecede toLowerCase column true b a) :
    sortKey toLowerCase column a = sortKey toLowerCase column b := by
  by_cases hc : column = "Year"
  · subst hc
    simp only [mayPrecede_year, if_true] at hab hba
    unfold yearKey at hab hba
    simp only [sortKey, if_true]
    congr 1
    exact le_antisymm hab hba
  · simp only [mayPrecede_text _ _ _ hc, if_true] at hab hba
    simp only [sortKey, hc, if_false]
    congr 1
    exact unitsLt_antisymm _ _ hba hab

theorem sortData_eq_insertionSort (toLowerCase : String → String) (data : List Record)
    (column : String) (ascending : Bool) :
    sortData toLowerCase data column ascending =
      data.insertionSort (mayPrecede toLowerCase column ascending) := rfl

theorem sortData_perm (toLowerCase : String → String) (data : List Record)
    (column : String) (ascending : Bool) :
    (sortData toLowerCase data column ascending).Perm data := by
  rw [sortData_eq_insertionSort]
  exact List.perm_insertionSort _ data

theorem sortData_sorted (toLowerCase : String → String) (data : List Record)
    (column : String) (ascending : Bool) :
    (sortData toLowerCase data column ascending).Pairwise
      (mayPrecede toLowerCase column ascending) := by
  rw [sortData_eq_insertionSort]
  haveI : IsTotal Record (mayPrecede toLowerCase column ascending) :=
    ⟨mayPrecede_total toLowerCase column ascending⟩
  haveI : IsTrans Record (mayPrecede toLowerCase column ascending) :=
    ⟨mayPrecede_trans toLowerCase column ascending⟩
  exact List.sorted_insertionSort _ data

/-! ## Facts about `parseInt` -/

theorem infinity_eq : infinity = 2 ^ 1024 := by
  unfold infinity
  norm_num

/-- Integers below 2^53 are their own Number value. -/
theorem numberOfNat_small (m : Nat) (h : m < 9007199254740992) : numberOfNat m = m := by
  have he : excessBits m m = 0 := by
    cases m with
    | zero => rfl
    | succ n => simp [excessBits, h]
  unfold numberOfNat
  simp only [he, pow_zero, Nat.div_one, Nat.mod_one, Nat.mul_one]
  have : m < infinity := by
    unfold infinity
    omega
  simp
  omega

/-- A text of decimal digits denoting an integer below 2^53 parses to that integer. -/
theorem parseInt_decimal (c : Char) (cs : List Char)
    (hd : ∀ x ∈ c :: cs, 48 ≤ x.toNat ∧ x.toNat ≤ 57)
    (hsmall : (c :: cs).foldl (fun acc x => acc * 10 + (x.toNat - 48)) 0 < 9007199254740992) :
    parseInt (String.mk (c :: cs)) =
      some (((c :: cs).foldl (fun acc x => acc * 10 + (x.toNat - 48)) 0 : Nat) : Int) := by
  have hc := hd c (List.mem_cons_self _ _)
  have hws : isWhiteSpace c = false := by
    simp [isWhiteSpace]
    omega
  have hlead : ∀ l : List Char, (∀ x ∈ l, 48 ≤ x.toNat ∧ x.toNat ≤ 57) →
      leadingDigits 10 l = l.map fun x => x.toNat - 48 := by
    intro l
    induction l with
    | nil => intro _; rfl
    | cons x xs ih =>
      intro hl
      have hx := hl x (List.mem_cons_self _ _)
      have : radixDigit 10 x = some (x.toNat - 48) := by
        simp [radixDigit, digitValue, hx]
        omega
      simp [leadingDigits, this, ih fun y hy => hl y (List.mem_cons_of_mem _ hy)]
  have hne1 : c ≠ '-' := by
    intro e; rw [e] at hc; revert hc; decide
  have hne2 : c ≠ '+' := by
    intro e; rw [e] at hc; revert hc; decide
  have hx : ∀ x ∈ cs, x ≠ 'x' ∧ x ≠ 'X' := by
    intro x hx
    have := hd x (List.mem_cons_of_mem _ hx)
    constructor <;> (intro e; rw [e] at this; revert this; decide)
  have hdrop : (String.mk (c :: cs)).toList.dropWhile isWhiteSpace = c :: cs := by
    simp [List.dropWhile, hws]
  unfold parseInt
  simp only [hdrop]
  have hsigned : (match c :: cs with
      | '-' :: rest => ((-1 : Int), rest)
      | '+' :: rest => (1, rest)
      | _ => (1, c :: cs)) = (1, c :: cs) := by
    split
    · rename_i h; simp at h; exact absurd h.1 hne1
    · rename_i h; simp at h; exact absurd h.1 hne2
    · rfl
  rw [hsigned]
  simp only
  have hbased : (match c :: cs with
      | '0' :: 'x' :: rest => (16, rest)
      | '0' :: 'X' :: rest => (16, rest)
      | _ => (10, c :: cs)) = (10, c :: cs) := by
    split
    · rename_i h; simp at h; exact absurd rfl (hx 'x' (by rw [h.2]; simp)).1
    · rename_i h; simp at h; exact absurd rfl (hx 'X' (by rw [h.2]; simp)).2
    · rfl
  rw [hbased]
  simp only
  rw [hlead _ hd]
  simp only [List.map_cons, List.foldl_cons, List.foldl_map, one_mul]
  simp only [List.foldl_cons] at hsmall
  congr 1
  unfold numberOfInt
  rw [if_neg (by omega), Int.natAbs_ofNat, numberOfNat_small _ hsmall]

/-- A text that starts with a character that is neither white space, nor a sign,
nor a decimal digit does not parse. -/
theorem parseInt_nonNumeric (c : Char) (cs : List Char) (hws : isWhiteSpace c = false)
    (hm : c ≠ '-') (hp : c ≠ '+') (hdig : radixDigit 10 c = none) :
    parseInt (String.mk (c :: cs)) = none := by
  have hz : c ≠ '0' := by
    intro e; rw [e] at hdig; revert hdig; decide
  have hdrop : (String.mk (c :: cs)).toList.dropWhile isWhiteSpace = c :: cs := by
    simp [List.dropWhile, hws]
  unfold parseInt
  simp only [hdrop]
  have hsigned : (match c :: cs with
      | '-' :: rest => ((-1 : Int), rest)
      | '+' :: rest => (1, rest)
      | _ => (1, c :: cs)) = (1, c :: cs) := by
    split
    · rename_i h; simp at h; exact absurd h.1 hm
    · rename_i h; simp at h; exact absurd h.1 hp
    · rfl
  rw [hsigned]
  simp only
  have hbased : (match c :: cs with
      | '0' :: 'x' :: rest => (16, rest)
      | '0' :: 'X' :: rest => (16, rest)
      | _ => (10, c :: cs)) = (10, c :: cs) := by
    split
    · rename_i h; simp at h; exact absurd h.1 hz
    · rename_i h; simp at h; exact absurd h.1 hz
    · rfl
  rw [hbased]
  simp only [leadingDigits, hdig]

/-- Years at or beyond 2^53 may share a Number value: these two records have the
same sort key, so a dataset holding both has duplicate sort keys. -/
theorem sortKey_year_rounds (toLowerCase : String → String) :
    sortKey toLowerCase "Year" [("Year", "9007199254740993")] =
      sortKey toLowerCase "Year" [("Year", "9007199254740992")] := by
  rfl

/-! ## Claims on sorting -/

/-- C5: `sortData(d, 'Year', asc)` is ordered by the numeric year key, the Number
`parseInt(Year) || 0`: adjacent records have non-decreasing keys when `asc` is
true and non-increasing keys when it is false. The key is `0` when `Year` is
missing or not numeric, and the integer denoted when `Year` is a decimal numeral
below 2^53; beyond that it is the nearest double (9007199254740993 has the key
9007199254740992, and two records with these Years stay in their order in both
directions). On the dataset Smith (2020), Jones (2019) ascending gives Jones,
Smith and descending gives Smith, Jones. -/
theorem C5_sortData_year_ordered (toLowerCase : String → String) (d : List Record)
    (asc : Bool) :
    List.Chain' (fun a b => if asc = true then yearKey a ≤ yearKey b else yearKey b ≤ yearKey a)
        (sortData toLowerCase d "Year" asc) ∧
      (∀ r, Obj.get r "Year" = none → yearKey r = 0) ∧
      (∀ r v, Obj.get r "Year" = some v → parseInt v = none → yearKey r = 0) ∧
      (∀ r v n, Obj.get r "Year" = some v → parseInt v = some n → yearKey r = n) ∧
      (∀ r c cs, Obj.get r "Year" = some (String.mk (c :: cs)) →
        (∀ x ∈ c :: cs, 48 ≤ x.toNat ∧ x.toNat ≤ 57) →
        (c :: cs).foldl (fun acc x => acc * 10 + (x.toNat - 48)) 0 < 9007199254740992 →
        yearKey r = (((c :: cs).foldl (fun acc x => acc * 10 + (x.toNat - 48)) 0 : Nat) : Int)) ∧
      (∀ r c cs, Obj.get r "Year" = some (String.mk (c :: cs)) → isWhiteSpace c = false →
        c ≠ '-' → c ≠ '+' → radixDigit 10 c = none → yearKey r = 0) ∧
      yearKey [("Year", "2020")] = 2020 ∧
      yearKey [("Year", "")] = 0 ∧
      yearKey [("Year", "n.d.")] = 0 ∧
      yearKey [("Year", "9007199254740993")] = 9007199254740992 ∧
      sortData toLowerCase
          [[("Year", "9007199254740993")], [("Year", "9007199254740992")]] "Year" true =
        [[("Year", "9007199254740993")], [("Year", "9007199254740992")]] ∧
      sortData toLowerCase
          [[("Year", "9007199254740993")], [("Year", "9007199254740992")]] "Year" false =
        [[("Year", "9007199254740993")], [("Year", "9007199254740992")]] ∧
      sortData toLowerCase
          [[("Author", "Smith"), ("Year", "2020")], [("Author", "Jones"), ("Year", "2019")]]
          "Year" true =
        [[("Author", "Jones"), ("Year", "2019")], [("Author", "Smith"), ("Year", "2020")]] ∧
      sortData toLowerCase
          [[("Author", "Smith"), ("Year", "2020")], [("Author", "Jones"), ("Year", "2019")]]
          "Year" false =
        [[("Author", "Smith"), ("Year", "2020")], [("Author", "Jones"), ("Year", "2019")]] := by
  refine ⟨?_, ?_, ?_, ?_, ?_, ?_, by decide, by decide, by decide, by decide, rfl, rfl, rfl, rfl⟩
  · apply List.Pairwise.chain'
    refine (sortData_sorted toLowerCase d "Year" asc).imp ?_
    intro a b hab
    exact (mayPrecede_year toLowerCase asc a b).1 hab
  · intro r hr
    simp [yearKey, hr, parseInt, leadingDigits]
  · intro r v hr hv
    simp [yearKey, hr, hv]
  · intro r v n hr hv
    simp [yearKey, hr, hv]
  · intro r c cs hr hd hsmall
    simp only [yearKey, hr, Option.getD_some, parseInt_decimal c cs hd hsmall]
  · intro r c cs hr hws hm hp hdig
    simp only [yearKey, hr, Option.getD_some, parseInt_nonNumeric c cs hws hm hp hdig,
      Option.getD_none]

/-- C6: for a dataset with no duplicate sort keys for column `c` (for `Year` the
keys are the Numbers the comparator compares), sorting ascending and then
descending on `c` yields exactly the reverse of the ascending result. -/
theorem C6_sort_round_trip (toLowerCase : String → String) (d : List Record) (c : String)
    (hkeys : (d.map (sortKey toLowerCase c)).Nodup) :
    sortData toLowerCase (sortData toLowerCase d c true) c false =
      (sortData toLowerCase d c true).reverse := by
  have hasc := sortData_perm toLowerCase d c true
  have hperm : (sortData toLowerCase (sortData toLowerCase d c true) c false).Perm
      (sortData toLowerCase d c true).reverse :=
    (sortData_perm toLowerCase _ c false).trans (List.reverse_perm _).symm
  refine List.Perm.eq_of_sorted ?_ (sortData_sorted toLowerCase _ c false) ?_ hperm
  · intro a b ha hb hab hba
    have ha' : a ∈ d := hasc.subset ((sortData_perm toLowerCase _ c false).subset ha)
    have hb' : b ∈ d := hasc.subset (List.mem_reverse.1 hb)
    have hk : sortKey toLowerCase c a = sortKey toLowerCase c b :=
      sortKey_eq_of_mayPrecede toLowerCase c a b
        ((mayPrecede_desc toLowerCase c b a).1 hba) ((mayPrecede_desc toLowerCase c a b).1 hab)
    exact List.inj_on_of_nodup_map hkeys ha' hb' hk
  · rw [List.pairwise_reverse]
    refine (sortData_sorted toLowerCase d c true).imp ?_
    intro a b hab
    exact (mayPrecede_desc toLowerCase c b a).2 hab

/-- Witness for C6: Smith (2020), Jones (2019), sorted on `Year`. -/
theorem C6_sort_round_trip_witness :
    ([[("Author", "Smith"), ("Year", "2020")], [("Author", "Jones"), ("Year", "2019")]].map
        (sortKey asciiLower "Year")).Nodup ∧
      sortData asciiLower
          (sortData asciiLower
            [[("Author", "Smith"), ("Year", "2020")], [("Author", "Jones"), ("Year", "2019")]]
            "Year" true)
          "Year" false =
        (sortData asciiLower
          [[("Author", "Smith"), ("Year", "2020")], [("Author", "Jones"), ("Year", "2019")]]
          "Year" true).reverse :=
  ⟨by decide, C6_sort_round_trip asciiLower _ "Year" (by decide)⟩

/-- C7: sorting an already sorted sequence again by the same column and direction
changes nothing, also when several records share a sort key. -/
theorem C7_sort_idempotent (toLowerCase : String → String) (d : List Record) (c : String)
    (asc : Bool) :
    sortData toLowerCase (sortData toLowerCase d c asc) c asc = sortData toLowerCase d c asc := by
  have h := sortData_sorted toLowerCase d c asc
  rw [sortData_eq_insertionSort toLowerCase (sortData toLowerCase d c asc)]
  exact List.Sorted.insertionSort_eq h

/-- C10: `sortData` sorts a copy and only reorders: the array it returns is newly
allocated and holds a permutation of the records of `data` (the value of
`sortData`), and every array that existed before the call, `data` included, still
holds the same records in the same order. -/
theorem C10_sortData_permutation_frame (toLowerCase : String → String) (h : Heap) (data : Nat)
    (c : String) (asc : Bool) :
    (sortData toLowerCase (Heap.read h data) c asc).Perm (Heap.read h data) ∧
      Heap.read (sortDataRef toLowerCase h data c asc).1 (sortDataRef toLowerCase h data c asc).2 =
        sortData toLowerCase (Heap.read h data) c asc ∧
      (sortDataRef toLowerCase h data c asc).2 = h.length ∧
      Heap.read (sortDataRef toLowerCase h data c asc).1 data = Heap.read h data ∧
      (∀ ref, ref < h.length →
        Heap.read (sortDataRef toLowerCase h data c asc).1 ref = Heap.read h ref) := by
  have hframe : ∀ ref, ref ≠ h.length →
      Heap.read (sortDataRef toLowerCase h data c asc).1 ref = Heap.read h ref := by
    intro ref hne
    simp only [sortDataRef, Heap.sort, Heap.slice, Heap.read, List.getD_eq_getElem?_getD,
      List.getElem?_set]
    rw [if_neg (fun hh => hne hh.symm)]
    by_cases hlt : ref < h.length
    · rw [List.getElem?_append_left hlt]
    · have hgt : h.length < ref := by omega
      rw [List.getElem?_eq_none (by simp; omega), List.getElem?_eq_none (by omega)]
  refine ⟨sortData_perm toLowerCase _ c asc, ?_, rfl, ?_, ?_⟩
  · simp only [sortDataRef, Heap.sort, Heap.slice, Heap.read, List.getD_eq_getElem?_getD,
      List.getElem?_set, sortData]
    simp
  · by_cases hd : data = h.length
    · subst hd
      simp only [sortDataRef, Heap.sort, Heap.slice, Heap.read, List.getD_eq_getElem?_getD,
        List.getElem?_set]
      simp [arraySort]
    · exact hframe data hd
  · intro ref hlt
    exact hframe ref (by omega)

/-! ## Claims on monotonicity and missing fields -/

theorem passesFilters_mono (S S' : Selection)
    (hfields : ∀ F, constrains S F → constrains S' F)
    (hvalues : ∀ F v, constrains S F → selects S' F v → selects S F v) (r : Record)
    (h : passesFilters S' r = true) : passesFilters S r = true := by
  rw [passesFilters_iff] at h ⊢
  intro F selected hS
  obtain ⟨selected', hS'⟩ := hfields F ⟨selected, hS⟩
  rcases h F selected' hS' with hnone | ⟨v, hv, hmem⟩
  · exact Or.inl hnone
  · right
    obtain ⟨sel2, hsel2, hmem2⟩ := hvalues F v ⟨selected, hS⟩ ⟨selected', hS', hmem⟩
    rw [hS] at hsel2
    cases hsel2
    exact ⟨v, hv, hmem2⟩

/-- C3, as stated, fails: with S selecting (F, A) and S' selecting (F, A) and
(F, B), every pair selected in S is selected in S', yet the record with F = B
passes under S' and not under S. -/
theorem C3_counterexample :
    (∀ F v, selects [("F", ["A"])] F v → selects [("F", ["A", "B"])] F v) ∧
      ¬ ((filterRecords [("F", ["A", "B"])] [[("F", "B")]]).length ≤
          (filterRecords [("F", ["A"])] [[("F", "B")]]).length) := by
  refine ⟨?_, by decide⟩
  rintro F v ⟨selected, hS, hmem⟩
  by_cases hF : "F" = F
  · subst hF
    simp only [Obj.get, if_true, Option.some.injEq] at hS
    subst hS
    refine ⟨["A", "B"], by simp [Obj.get], ?_⟩
    simp only [List.mem_singleton] at hmem
    simp [hmem]
  · simp [Obj.get, hF] at hS

/-- C3, amended: when S' constrains every field that S constrains and selects,
for each of those fields, only values that S selects too (S' may constrain
further fields), at most as many records pass under S' as under S. -/
theorem C3_filter_monotone (data : List Record) (S S' : Selection)
    (hfields : ∀ F, constrains S F → constrains S' F)
    (hvalues : ∀ F v, constrains S F → selects S' F v → selects S F v) :
    (filterRecords S' data).length ≤ (filterRecords S data).length := by
  unfold filterRecords
  rw [← List.countP_eq_length_filter, ← List.countP_eq_length_filter]
  exact List.countP_mono_left fun r _ h => passesFilters_mono S S' hfields hvalues r h

/-- Witness for C3: adding a constraint on a second field. -/
theorem C3_filter_monotone_witness :
    (filterRecords [("F", ["A"]), ("G", ["X"])]
        [[("F", "A"), ("G", "Y")], [("F", "A"), ("G", "X")]]).length ≤
      (filterRecords [("F", ["A"])]
        [[("F", "A"), ("G", "Y")], [("F", "A"), ("G", "X")]]).length :=
  C3_filter_monotone _ [("F", ["A"])] [("F", ["A"]), ("G", ["X"])]
    (by
      rintro F ⟨selected, hS⟩
      by_cases hF : "F" = F
      · exact ⟨["A"], by simp [Obj.get, hF]⟩
      · simp [Obj.get, hF] at hS)
    (by
      rintro F v ⟨selected, hS⟩ ⟨selected', hS', hmem⟩
      by_cases hF : "F" = F
      · simp only [Obj.get, hF, if_true, Option.some.injEq] at hS'
        subst hS'
        exact ⟨["A"], by simp [Obj.get, hF], hmem⟩
      · simp [Obj.get, hF] at hS)

/-- C4: a record that lacks field F passes under one of two selections that
differ only in what they select for F iff it passes under the other; a record
lacking F passes every selection that constrains only F; the selection
Outcome: [Positive] keeps every tool of a dataset in which no tool has an
Outcome field, and keeps exactly the papers whose Outcome is Positive or absent. -/
theorem C4_missing_field_vacuous :
    (∀ (r : Record) (F : String) (S₁ S₂ : Selection), Obj.get r F = none →
        (∀ F', F' ≠ F → Obj.get S₁ F' = Obj.get S₂ F') →
        (passesFilters S₁ r = true ↔ passesFilters S₂ r = true)) ∧
      (∀ (r : Record) (F : String) (selected : List String), Obj.get r F = none →
        passesFilters [(F, selected)] r = true) ∧
      (∀ tools : List Record, (∀ t ∈ tools, Obj.get t "Outcome" = none) →
        filterRecords [("Outcome", ["Positive"])] tools = tools) ∧
      (∀ papers : List Record,
        filterRecords [("Outcome", ["Positive"])] papers =
          papers.filter fun p =>
            decide (Obj.get p "Outcome" = none ∨ Obj.get p "Outcome" = some "Positive")) := by
  have hone : ∀ (r : Record) (F : String) (selected : List String),
      passesFilters [(F, selected)] r = true ↔
        (Obj.get r F = none ∨ ∃ v, Obj.get r F = some v ∧ v ∈ selected) := by
    intro r F selected
    rw [passesFilters_iff]
    constructor
    · intro h
      exact h F selected (by simp [Obj.get])
    · intro h F' selected' hS
      by_cases hF : F = F'
      · subst hF
        simp only [Obj.get, if_true, Option.some.injEq] at hS
        subst hS
        exact h
      · simp [Obj.get, hF] at hS
  refine ⟨?_, ?_, ?_, ?_⟩
  · intro r F S₁ S₂ hr hS
    rw [passesFilters_iff, passesFilters_iff]
    constructor
    · intro h F' selected hsel
      by_cases hF : F' = F
      · subst hF
        exact Or.inl hr
      · exact h F' selected (by rw [hS F' hF]; exact hsel)
    · intro h F' selected hsel
      by_cases hF : F' = F
      · subst hF
        exact Or.inl hr
      · exact h F' selected (by rw [← hS F' hF]; exact hsel)
  · intro r F selected hr
    exact (hone r F selected).2 (Or.inl hr)
  · intro tools htools
    unfold filterRecords
    rw [List.filter_eq_self]
    intro t ht
    exact (hone t "Outcome" _).2 (Or.inl (htools t ht))
  · intro papers
    unfold filterRecords
    apply List.filter_congr
    intro p _
    rw [Bool.eq_iff_iff, hone, decide_eq_true_iff]
    constructor
    · rintro (h | ⟨v, hv, hmem⟩)
      · exact Or.inl h
      · simp only [List.mem_singleton] at hmem
        subst hmem
        exact Or.inr hv
    · rintro (h | h)
      · exact Or.inl h
      · exact Or.inr ⟨"Positive", h, by simp⟩

/-- Witness for C4: two tools without an Outcome field are both kept. -/
theorem C4_missing_field_vacuous_witness :
    filterRecords [("Outcome", ["Positive"])]
        [[("Name", "Miro"), ("Provider", "Miro")], [("Name", "Zoom")]] =
      [[("Name", "Miro"), ("Provider", "Miro")], [("Name", "Zoom")]] :=
  C4_missing_field_vacuous.2.2.1 _ (by decide)

/-! ## Facts about buttons and their positions -/

theorem getBtn_modifyBtn (doc : Document) (p q : BtnRef) (f : FilterBtn → FilterBtn) :
    getBtn (modifyBtn doc p f) q = if p = q then (getBtn doc q).map f else getBtn doc q := by
  obtain ⟨p1, p2⟩ := p
  obtain ⟨q1, q2⟩ := q
  simp only [getBtn, modifyBtn, List.getElem?_modify, Prod.mk.injEq]
  cases hg : doc[q1]? with
  | none => simp
  | some g =>
    by_cases h1 : p1 = q1
    · subst h1
      simp only [Option.map_eq_map, Option.map_some', if_true, true_and, List.getElem?_modify]
      by_cases h2 : p2 = q2
      · subst h2
        simp
      · simp only [h2, if_false]
        cases g.buttons[q2]? <;> simp
    · simp [h1]

theorem btnKey_modifyBtn (doc : Document) (p q : BtnRef) (f : FilterBtn → FilterBtn) :
    btnKey (modifyBtn doc p f) q = btnKey doc q := by
  obtain ⟨p1, p2⟩ := p
  obtain ⟨q1, q2⟩ := q
  simp only [btnKey, modifyBtn, List.getElem?_modify]
  cases hg : doc[q1]? with
  | none => simp
  | some g =>
    by_cases h1 : p1 = q1
    · simp [h1]
    · simp [h1]

theorem mem_allFilterBtns (doc : Document) (q : BtnRef) :
    q ∈ allFilterBtns doc ↔ ∃ b, getBtn doc q = some b := by
  obtain ⟨q1, q2⟩ := q
  simp only [allFilterBtns, List.mem_flatMap, List.mem_map, List.mem_range, Prod.mk.injEq,
    getBtn, Prod.exists]
  constructor
  · rintro ⟨i, g, hig, j, hj, rfl, rfl⟩
    obtain ⟨hi, hg⟩ := List.mem_enum hig
    rw [List.getElem?_eq_getElem hi, ← hg]
    exact ⟨_, List.getElem?_eq_getElem hj⟩
  · rintro ⟨b, hb⟩
    cases hg : doc[q1]? with
    | none => simp [hg] at hb
    | some g =>
      simp only [hg] at hb
      refine ⟨q1, g, ?_, q2, ?_, rfl, rfl⟩
      · rw [List.mem_iff_getElem?]
        exact ⟨q1, by rw [List.getElem?_enum, hg]; rfl⟩
      · exact (List.getElem?_eq_some_iff.1 hb).1

/-! ## Facts about highlighting -/

theorem SameText.refl (d : Document) : SameText d d := fun _ => ⟨rfl, rfl⟩

theorem SameText.trans {d₁ d₂ d₃ : Document} (h₁ : SameText d₁ d₂) (h₂ : SameText d₂ d₃) :
    SameText d₁ d₃ :=
  fun q => ⟨(h₁ q).1.trans (h₂ q).1, (h₁ q).2.trans (h₂ q).2⟩

theorem sameText_modifyBtn (d : Document) (p : BtnRef) (f : FilterBtn → FilterBtn)
    (hf : ∀ b, (f b).textContent = b.textContent) : SameText (modifyBtn d p f) d := by
  intro q
  refine ⟨btnKey_modifyBtn d p q f, ?_⟩
  rw [getBtn_modifyBtn]
  by_cases h : p = q
  · simp only [h, if_true, Option.map_map]
    cases getBtn d q <;> simp [hf]
  · simp [h]

theorem matchesBtn_congr {d d' : Document} (h : SameText d d') (key value : String) :
    matchesBtn d key value = matchesBtn d' key value := by
  funext q
  obtain ⟨h1, h2⟩ := h q
  unfold matchesBtn
  rw [h1]
  cases hk : btnKey d' q with
  | none => rfl
  | some k =>
    cases hb : getBtn d q with
    | none =>
      cases hb' : getBtn d' q with
      | none => rfl
      | some b' => simp [hb, hb'] at h2
    | some b =>
      cases hb' : getBtn d' q with
      | none => simp [hb, hb'] at h2
      | some b' =>
        simp only [hb, hb', Option.map_some', Option.some.injEq] at h2
        simp [h2]

theorem matchesBtn_iff (d : Document) (key value : String) (q : BtnRef) :
    matchesBtn d key value q = true ↔
      btnKey d q = some key ∧ ∃ b, getBtn d q = some b ∧ b.textContent = value := by
  unfold matchesBtn
  cases hk : btnKey d q with
  | none => simp
  | some k =>
    cases hb : getBtn d q with
    | none => simp
    | some b => simp

theorem sameText_valid {d d' : Document} (h : SameText d d') (q : BtnRef) :
    (∃ b, getBtn d q = some b) ↔ ∃ b, getBtn d' q = some b := by
  have h2 := (h q).2
  cases hb : getBtn d q with
  | none =>
    cases hb' : getBtn d' q with
    | none => simp
    | some b' => simp [hb, hb'] at h2
  | some b =>
    cases hb' : getBtn d' q with
    | none => simp [hb, hb'] at h2
    | some b' => simp

theorem isHighlighted_add (d : Document) (p q : BtnRef) :
    isHighlighted (modifyBtn d p addHighlight) q ↔
      isHighlighted d q ∨ (p = q ∧ ∃ b, getBtn d q = some b) := by
  unfold isHighlighted
  rw [getBtn_modifyBtn]
  by_cases h : p = q
  · simp only [h, if_true, true_and]
    cases hb : getBtn d q with
    | none => simp
    | some b => simp [addHighlight]
  · simp [h]

theorem isHighlighted_remove (d : Document) (p q : BtnRef) :
    isHighlighted (modifyBtn d p removeHighlight) q ↔ isHighlighted d q ∧ p ≠ q := by
  unfold isHighlighted
  rw [getBtn_modifyBtn]
  by_cases h : p = q
  · simp only [h, if_true]
    cases hb : getBtn d q with
    | none => simp
    | some b => simp [removeHighlight]
  · simp [h]

theorem clear_spec (ps : List BtnRef) (d : Document) :
    SameText (ps.foldl (fun d btn => modifyBtn d btn removeHighlight) d) d ∧
      ∀ q, isHighlighted (ps.foldl (fun d btn => modifyBtn d btn removeHighlight) d) q ↔
        isHighlighted d q ∧ q ∉ ps := by
  induction ps generalizing d with
  | nil => exact ⟨SameText.refl d, fun q => by simp⟩
  | cons p ps ih =>
    obtain ⟨h1, h2⟩ := ih (modifyBtn d p removeHighlight)
    refine ⟨h1.trans (sameText_modifyBtn d p _ fun _ => rfl), ?_⟩
    intro q
    rw [List.foldl_cons, h2 q, isHighlighted_remove, List.mem_cons]
    constructor
    · rintro ⟨⟨ha, hne⟩, hnot⟩
      refine ⟨ha, ?_⟩
      rintro (h | h)
      · exact hne h.symm
      · exact hnot h
    · rintro ⟨ha, hnot⟩
      exact ⟨⟨ha, fun h => hnot (Or.inl h.symm)⟩, fun h => hnot (Or.inr h)⟩

theorem markEntries_spec (es : List (BtnRef × Bool)) (d : Document) :
    SameText
        (es.foldl (fun d entry => if entry.2 then modifyBtn d entry.1 addHighlight else d) d) d ∧
      ∀ q,
        isHighlighted
            (es.foldl (fun d entry => if entry.2 then modifyBtn d entry.1 addHighlight else d) d)
            q ↔
          isHighlighted d q ∨ ((q, true) ∈ es ∧ ∃ b, getBtn d q = some b) := by
  induction es generalizing d with
  | nil => exact ⟨SameText.refl d, fun q => by simp⟩
  | cons e es ih =>
    obtain ⟨p, v⟩ := e
    cases v with
    | false =>
      obtain ⟨h1, h2⟩ := ih d
      refine ⟨by simpa using h1, ?_⟩
      intro q
      have := h2 q
      simp only [List.foldl_cons, Bool.false_eq_true, if_false, List.mem_cons, Prod.mk.injEq,
        Bool.true_eq_false, and_false, false_or] at this ⊢
      exact this
    | true =>
      obtain ⟨h1, h2⟩ := ih (modifyBtn d p addHighlight)
      have hs : SameText (modifyBtn d p addHighlight) d := sameText_modifyBtn d p _ fun _ => rfl
      refine ⟨by simpa using h1.trans hs, ?_⟩
      intro q
      have := h2 q
      simp only [List.foldl_cons, if_true, List.mem_cons, Prod.mk.injEq, and_true] at this ⊢
      rw [this, isHighlighted_add, sameText_valid hs q]
      constructor
      · rintro ((h | ⟨h, hv⟩) | ⟨h, hv⟩)
        · exact Or.inl h
        · exact Or.inr ⟨Or.inl h.symm, hv⟩
        · exact Or.inr ⟨Or.inr h, hv⟩
      · rintro (h | ⟨h | h, hv⟩)
        · exact Or.inl (Or.inl h)
        · exact Or.inl (Or.inr ⟨h.symm, hv⟩)
        · exact Or.inr ⟨h, hv⟩

theorem mem_mapSet (m : List (BtnRef × Bool)) (k : BtnRef) (v : Bool) (e : BtnRef × Bool)
    (he : e ∈ mapSet m k v) : e ∈ m ∨ e = (k, v) := by
  induction m with
  | nil =>
    simp only [mapSet, List.mem_singleton] at he
    exact Or.inr he
  | cons x rest ih =>
    obtain ⟨k', v'⟩ := x
    unfold mapSet at he
    by_cases h : k' = k
    · simp only [h, if_true, List.mem_cons] at he
      rcases he with he | he
      · exact Or.inr he
      · exact Or.inl (List.mem_cons_of_mem _ he)
    · simp only [h, if_false, List.mem_cons] at he
      rcases he with he | he
      · exact Or.inl (by rw [he]; exact List.mem_cons_self _ _)
      · rcases ih he with h' | h'
        · exact Or.inl (List.mem_cons_of_mem _ h')
        · exact Or.inr h'

theorem mapSet_mem (m : List (BtnRef × Bool)) (k : BtnRef) (v : Bool) :
    (k, v) ∈ mapSet m k v := by
  induction m with
  | nil => simp [mapSet]
  | cons x rest ih =>
    obtain ⟨k', v'⟩ := x
    unfold mapSet
    by_cases h : k' = k
    · simp [h]
    · simp only [h, if_false, List.mem_cons]
      exact Or.inr ih

theorem tokenFold_spec (d0 : Document) (key token : String) (ps : List BtnRef) :
    ∀ (m : List (BtnRef × Bool)) (d : Document), SameText d d0 →
      (∀ e ∈ m, e.2 = true → isHighlighted d e.1) →
      SameText (ps.foldl (tokenCallback key token) (m, d)).2 d0 ∧
        ∀ q, isHighlighted (ps.foldl (tokenCallback key token) (m, d)).2 q ↔
          isHighlighted d q ∨ (q ∈ ps ∧ matchesBtn d0 key token q = true) := by
  induction ps with
  | nil =>
    intro m d hs _
    exact ⟨hs, fun q => by simp⟩
  | cons p ps ih =>
    intro m d hs hm
    obtain ⟨hs1, hh1⟩ := markEntries_spec (mapSet m p (matchesBtn d key token p)) d
    have hstep : ∀ q,
        isHighlighted (tokenCallback key token (m, d) p).2 q ↔
          isHighlighted d q ∨ (q = p ∧ matchesBtn d0 key token q = true) := by
      intro q
      simp only [tokenCallback]
      rw [hh1 q, matchesBtn_congr hs]
      constructor
      · rintro (h | ⟨hmem, hv⟩)
        · exact Or.inl h
        · rcases mem_mapSet _ _ _ _ hmem with h' | h'
          · exact Or.inl (hm _ h' rfl)
          · simp only [Prod.mk.injEq] at h'
            exact Or.inr ⟨h'.1, by rw [h'.1]; exact h'.2.symm⟩
      · rintro (h | ⟨hq, hmatch⟩)
        · exact Or.inl h
        · subst hq
          right
          refine ⟨?_, ?_⟩
          · have := mapSet_mem m q (matchesBtn d0 key token q)
            rw [hmatch] at this
            rw [hmatch]
            exact this
          · obtain ⟨_, b, hb, _⟩ := (matchesBtn_iff d0 key token q).1 hmatch
            exact (sameText_valid hs q).2 ⟨b, hb⟩
    have hm' : ∀ e ∈ (tokenCallback key token (m, d) p).1, e.2 = true →
        isHighlighted (tokenCallback key token (m, d) p).2 e.1 := by
      intro e he hv
      simp only [tokenCallback] at he
      rcases mem_mapSet _ _ _ _ he with h' | h'
      · exact (hstep e.1).2 (Or.inl (hm e h' hv))
      · refine (hstep e.1).2 (Or.inr ?_)
        rw [h'] at hv ⊢
        rw [matchesBtn_congr hs] at hv
        exact ⟨rfl, hv⟩
    have hs' : SameText (tokenCallback key token (m, d) p).2 d0 := by
      simp only [tokenCallback]
      exact hs1.trans hs
    obtain ⟨r1, r2⟩ := ih (tokenCallback key token (m, d) p).1
      (tokenCallback key token (m, d) p).2 hs' hm'
    refine ⟨r1, ?_⟩
    intro q
    rw [List.foldl_cons]
    rw [r2 q, hstep q, List.mem_cons]
    constructor
    · rintro ((h | ⟨h, hv⟩) | ⟨h, hv⟩)
      · exact Or.inl h
      · exact Or.inr ⟨Or.inl h, hv⟩
      · exact Or.inr ⟨Or.inr h, hv⟩
    · rintro (h | ⟨h | h, hv⟩)
      · exact Or.inl (Or.inl h)
      · exact Or.inl (Or.inr ⟨h, hv⟩)
      · exact Or.inr ⟨h, hv⟩

theorem highlightToken_spec (d0 : Document) (allBtns : List BtnRef) (key token : String)
    (d : Document) (hs : SameText d d0) :
    SameText (highlightToken allBtns key d token) d0 ∧
      ∀ q, isHighlighted (highlightToken allBtns key d token) q ↔
        isHighlighted d q ∨ (q ∈ allBtns ∧ matchesBtn d0 key token q = true) :=
  tokenFold_spec d0 key token allBtns [] d hs (fun _ he => by cases he)

theorem tokensFold_spec (d0 : Document) (allBtns : List BtnRef) (key : String)
    (tokens : List String) :
    ∀ d : Document, SameText d d0 →
      SameText (tokens.foldl (highlightToken allBtns key) d) d0 ∧
        ∀ q, isHighlighted (tokens.foldl (highlightToken allBtns key) d) q ↔
          isHighlighted d q ∨
            ∃ token ∈ tokens, q ∈ allBtns ∧ matchesBtn d0 key token q = true := by
  induction tokens with
  | nil =>
    intro d hs
    exact ⟨hs, fun q => by simp⟩
  | cons t ts ih =>
    intro d hs
    obtain ⟨h1, h2⟩ := highlightToken_spec d0 allBtns key t d hs
    obtain ⟨r1, r2⟩ := ih (highlightToken allBtns key d t) h1
    refine ⟨r1, ?_⟩
    intro q
    rw [List.foldl_cons, r2 q, h2 q]
    constructor
    · rintro ((h | h) | ⟨token, ht, h⟩)
      · exact Or.inl h
      · exact Or.inr ⟨t, List.mem_cons_self _ _, h⟩
      · exact Or.inr ⟨token, List.mem_cons_of_mem _ ht, h⟩
    · rintro (h | ⟨token, ht, h⟩)
      · exact Or.inl (Or.inl h)
      · rcases List.mem_cons.1 ht with ht' | ht'
        · subst ht'
          exact Or.inl (Or.inr h)
        · exact Or.inr ⟨token, ht', h⟩

theorem highlightField_spec (d0 : Document) (allBtns : List BtnRef) (rowData : Record)
    (key : String) (d : Document) (hs : SameText d d0) :
    SameText (highlightField allBtns rowData d key) d0 ∧
      ∀ q, isHighlighted (highlightField allBtns rowData d key) q ↔
        isHighlighted d q ∨ fieldMarks d0 allBtns rowData key q := by
  unfold highlightField fieldMarks
  cases hv : Obj.get rowData key with
  | none => exact ⟨hs, fun q => by simp⟩
  | some value =>
    simp only [Option.some.injEq, exists_eq_left']
    -- the state after the comma branch
    have hcomma : ∃ d1 : Document,
        d1 = (if value.toList.contains ',' = true then
            (split value ',').foldl (highlightToken allBtns key) d else d) ∧
          SameText d1 d0 ∧
          ∀ q, isHighlighted d1 q ↔
            isHighlighted d q ∨
              (value.toList.contains ',' = true ∧
                ∃ token ∈ split value ',', q ∈ allBtns ∧ matchesBtn d0 key token q = true) := by
      by_cases hc : value.toList.contains ',' = true
      · obtain ⟨h1, h2⟩ := tokensFold_spec d0 allBtns key (split value ',') d hs
        refine ⟨_, rfl, ?_, ?_⟩
        · rw [if_pos hc]
          exact h1
        · intro q
          rw [if_pos hc, h2 q]
          simp only [hc, true_and]
      · refine ⟨_, rfl, ?_, ?_⟩
        · rw [if_neg hc]
          exact hs
        · intro q
          rw [if_neg hc]
          simp only [hc, Bool.false_eq_true, false_and, or_false]
    obtain ⟨d1, hd1, hs1, hh1⟩ := hcomma
    rw [← hd1, matchesBtn_congr hs1]
    cases hf : allBtns.find? (matchesBtn d0 key value) with
    | none =>
      refine ⟨hs1, ?_⟩
      intro q
      rw [hh1 q]
      simp
    | some p =>
      have hsm : SameText (modifyBtn d1 p addHighlight) d1 :=
        sameText_modifyBtn d1 p _ fun _ => rfl
      refine ⟨hsm.trans hs1, ?_⟩
      intro q
      simp only [Option.some.injEq]
      rw [isHighlighted_add, hh1 q]
      have hp : matchesBtn d0 key value p = true := List.find?_some hf
      have hvalid : ∃ b, getBtn d1 p = some b := by
        obtain ⟨_, b, hb, _⟩ := (matchesBtn_iff d0 key value p).1 hp
        exact (sameText_valid hs1 p).2 ⟨b, hb⟩
      constructor
      · rintro ((h | h) | ⟨h, _⟩)
        · exact Or.inl h
        · exact Or.inr (Or.inl h)
        · exact Or.inr (Or.inr h)
      · rintro (h | h | h)
        · exact Or.inl (Or.inl h)
        · exact Or.inl (Or.inr h)
        · subst h
          exact Or.inr ⟨rfl, hvalid⟩

theorem keysFold_spec (d0 : Document) (allBtns : List BtnRef) (rowData : Record)
    (keys : List String) :
    ∀ d : Document, SameText d d0 →
      SameText (keys.foldl (highlightField allBtns rowData) d) d0 ∧
        ∀ q, isHighlighted (keys.foldl (highlightField allBtns rowData) d) q ↔
          isHighlighted d q ∨ ∃ key ∈ keys, fieldMarks d0 allBtns rowData key q := by
  induction keys with
  | nil =>
    intro d hs
    exact ⟨hs, fun q => by simp⟩
  | cons k ks ih =>
    intro d hs
    obtain ⟨h1, h2⟩ := highlightField_spec d0 allBtns rowData k d hs
    obtain ⟨r1, r2⟩ := ih (highlightField allBtns rowData d k) h1
    refine ⟨r1, ?_⟩
    intro q
    rw [List.foldl_cons, r2 q, h2 q]
    constructor
    · rintro ((h | h) | ⟨key, hk, h⟩)
      · exact Or.inl h
      · exact Or.inr ⟨k, List.mem_cons_self _ _, h⟩
      · exact Or.inr ⟨key, List.mem_cons_of_mem _ hk, h⟩
    · rintro (h | ⟨key, hk, h⟩)
      · exact Or.inl (Or.inl h)
      · rcases List.mem_cons.1 hk with hk' | hk'
        · subst hk'
          exact Or.inl (Or.inr h)
        · exact Or.inr ⟨key, hk', h⟩

/-- What `highlightFilters` leaves highlighted, whatever was highlighted before. -/
theorem highlightFilters_spec (doc : Document) (rowData : Record) :
    SameText (highlightFilters doc rowData) doc ∧
      ∀ q, isHighlighted (highlightFilters doc rowData) q ↔
        ∃ key, fieldMarks doc (allFilterBtns doc) rowData key q := by
  unfold highlightFilters
  obtain ⟨c1, c2⟩ := clear_spec (allFilterBtns doc) doc
  obtain ⟨r1, r2⟩ := keysFold_spec doc (allFilterBtns doc) rowData (Obj.keys rowData) _ c1
  refine ⟨r1, ?_⟩
  intro q
  simp only
  rw [r2 q, c2 q]
  constructor
  · rintro (⟨⟨b, hb, _⟩, hnot⟩ | ⟨key, _, h⟩)
    · exact absurd ((mem_allFilterBtns doc q).2 ⟨b, hb⟩) hnot
    · exact ⟨key, h⟩
  · rintro ⟨key, h⟩
    right
    refine ⟨key, ?_, h⟩
    obtain ⟨value, hv, _⟩ := h
    exact (Obj.get_isSome_iff_mem_keys rowData key).1 ⟨value, hv⟩

/-- The marks of `highlightFilters` on one button, in terms of its own key and text. -/
theorem highlightFilters_button (doc : Document) (rowData : Record) (q : BtnRef)
    (b : FilterBtn) (k : String) (hb : getBtn doc q = some b) (hk : btnKey doc q = some k) :
    isHighlighted (highlightFilters doc rowData) q ↔
      ∃ value, Obj.get rowData k = some value ∧
        ((value.toList.contains ',' = true ∧ b.textContent ∈ split value ',') ∨
          (allFilterBtns doc).find? (matchesBtn doc k value) = some q) := by
  rw [(highlightFilters_spec doc rowData).2 q]
  have hkey : ∀ key value, matchesBtn doc key value q = true ↔ (k = key ∧ b.textContent = value) := by
    intro key value
    rw [matchesBtn_iff, hk, hb]
    simp
  constructor
  · rintro ⟨key, value, hv, h⟩
    have hkk : k = key := by
      rcases h with ⟨_, token, _, _, hm⟩ | hf
      · exact ((hkey key token).1 hm).1
      · exact ((hkey key value).1 (List.find?_some hf)).1
    subst hkk
    refine ⟨value, hv, ?_⟩
    rcases h with ⟨hc, token, ht, _, hm⟩ | hf
    · left
      refine ⟨hc, ?_⟩
      rw [((hkey k token).1 hm).2]
      exact ht
    · exact Or.inr hf
  · rintro ⟨value, hv, h⟩
    refine ⟨k, value, hv, ?_⟩
    rcases h with ⟨hc, ht⟩ | hf
    · left
      exact ⟨hc, b.textContent, ht, (mem_allFilterBtns doc q).2 ⟨b, hb⟩,
        (hkey k b.textContent).2 ⟨rfl, rfl⟩⟩
    · exact Or.inr hf

theorem splitChars_of_not_mem (sep : Char) (l : List Char) (h : sep ∉ l) :
    splitChars sep l = [l] := by
  induction l with
  | nil => rfl
  | cons c cs ih =>
    have hc : c ≠ sep := fun e => h (by rw [e]; exact List.mem_cons_self _ _)
    have hcs : sep ∉ cs := fun e => h (List.mem_cons_of_mem _ e)
    simp [splitChars, hc, ih hcs]

theorem splitChars_append (sep : Char) (l rest : List Char) (h : sep ∉ l) :
    splitChars sep (l ++ sep :: rest) = l :: splitChars sep rest := by
  induction l with
  | nil => simp [splitChars]
  | cons c cs ih =>
    have hc : c ≠ sep := fun e => h (by rw [e]; exact List.mem_cons_self _ _)
    have hcs : sep ∉ cs := fun e => h (List.mem_cons_of_mem _ e)
    simp [splitChars, hc, ih hcs]

theorem split_pair (A B : String) (hA : ',' ∉ A.toList) (hB : ',' ∉ B.toList) :
    split (A ++ "," ++ B) ',' = [A, B] ∧ (A ++ "," ++ B).toList.contains ',' = true := by
  have hl : (A ++ "," ++ B).toList = A.toList ++ ',' :: B.toList := by
    simp [String.toList]
  constructor
  · unfold split
    rw [hl, splitChars_append _ _ _ hA, splitChars_of_not_mem _ _ hB]
    rfl
  · rw [hl]
    simp

/-! ## Claims on highlighting -/

/-- C8, as stated, fails: with buttons A, B and "A,B" under F, the row whose
field F has the value "A,B" also marks the button whose text is "A,B". -/
theorem C8_counterexample :
    getBtn
        (highlightFilters [⟨"F", [mkBtn "A", mkBtn "B", mkBtn "A,B"]⟩] [("F", "A,B")]) (0, 2) =
      some ⟨"A,B", false, false, false, true, ""⟩ := by
  decide

/-- C8, amended: for every set of filter buttons and every row whose only field F
has the value "A,B" (A and B free of commas), `highlightFilters` marks exactly the
buttons under F whose text is A or B and the first button under F whose text is
the whole value, if there is one; no other button is marked, whatever was
highlighted before the call. -/
theorem C8_highlight_comma_row (doc : Document) (F A B : String) (hA : ',' ∉ A.toList)
    (hB : ',' ∉ B.toList) (q : BtnRef) (b : FilterBtn) (k : String)
    (hb : getBtn doc q = some b) (hk : btnKey doc q = some k) :
    isHighlighted (highlightFilters doc [(F, A ++ "," ++ B)]) q ↔
      k = F ∧
        (b.textContent = A ∨ b.textContent = B ∨
          (allFilterBtns doc).find? (matchesBtn doc F (A ++ "," ++ B)) = some q) := by
  rw [highlightFilters_button doc _ q b k hb hk]
  obtain ⟨hsplit, hcomma⟩ := split_pair A B hA hB
  constructor
  · rintro ⟨value, hv, h⟩
    by_cases hF : F = k
    · subst hF
      simp only [Obj.get, if_true, Option.some.injEq] at hv
      subst hv
      refine ⟨rfl, ?_⟩
      rcases h with ⟨_, ht⟩ | hf
      · rw [hsplit] at ht
        simp only [List.mem_cons, List.mem_singleton, List.not_mem_nil, or_false] at ht
        rcases ht with ht | ht
        · exact Or.inl ht
        · exact Or.inr (Or.inl ht)
      · exact Or.inr (Or.inr hf)
    · simp [Obj.get, hF] at hv
  · rintro ⟨hF, h⟩
    subst hF
    refine ⟨A ++ "," ++ B, by simp [Obj.get], ?_⟩
    rcases h with h | h | h
    · exact Or.inl ⟨hcomma, by rw [hsplit, h]; simp⟩
    · exact Or.inl ⟨hcomma, by rw [hsplit, h]; simp⟩
    · exact Or.inr h

/-- Witness for C8: the button B under F, with a button X highlighted before. -/
theorem C8_highlight_comma_row_witness :
    isHighlighted
        (highlightFilters
          [⟨"F", [mkBtn "A", mkBtn "B"]⟩, ⟨"G", [⟨"X", false, false, false, true, ""⟩]⟩]
          [("F", "A" ++ "," ++ "B")])
        (0, 1) ↔
      "F" = "F" ∧
        ((mkBtn "B").textContent = "A" ∨ (mkBtn "B").textContent = "B" ∨
          (allFilterBtns
              [⟨"F", [mkBtn "A", mkBtn "B"]⟩,
                ⟨"G", [⟨"X", false, false, false, true, ""⟩]⟩]).find?
            (matchesBtn
              [⟨"F", [mkBtn "A", mkBtn "B"]⟩, ⟨"G", [⟨"X", false, false, false, true, ""⟩]⟩]
              "F" ("A" ++ "," ++ "B")) = some (0, 1)) :=
  C8_highlight_comma_row _ "F" "A" "B" (by decide) (by decide) (0, 1) (mkBtn "B") "F"
    (by decide) (by decide)

/-- C9, as stated, fails: tokens are not trimmed. With buttons A and B under F,
the row value "A, B" marks the button A and leaves the button B unmarked. -/
theorem C9_counterexample :
    getBtn (highlightFilters [⟨"F", [mkBtn "A", mkBtn "B"]⟩] [("F", "A, B")]) (0, 0) =
        some ⟨"A", false, false, false, true, ""⟩ ∧
      getBtn (highlightFilters [⟨"F", [mkBtn "A", mkBtn "B"]⟩] [("F", "A, B")]) (0, 1) =
        some ⟨"B", false, false, false, false, ""⟩ := by
  decide

/-- C9, amended: for a row field F whose value contains a comma, a button under F
is marked iff its text equals one of the pieces of the value split on commas,
untrimmed, or it is the first button under F whose text is the whole value. The
pieces of "A, B" are "A" and " B": for that value the buttons under F with text
"A" or " B" are marked and a button with text "B" is not. For a value without a
comma a button under F is marked iff it is the first button matching field and
value exactly. -/
theorem C9_highlight_tokens (doc : Document) (rowData : Record) (F value : String)
    (q : BtnRef) (b : FilterBtn) (hv : Obj.get rowData F = some value)
    (hb : getBtn doc q = some b) (hk : btnKey doc q = some F) :
    (value.toList.contains ',' = true →
        (isHighlighted (highlightFilters doc rowData) q ↔
          b.textContent ∈ split value ',' ∨
            (allFilterBtns doc).find? (matchesBtn doc F value) = some q)) ∧
      (value.toList.contains ',' = false →
        (isHighlighted (highlightFilters doc rowData) q ↔
          (allFilterBtns doc).find? (matchesBtn doc F value) = some q)) ∧
      split "A, B" ',' = ["A", " B"] ∧
      (value = "A, B" → (b.textContent = "A" ∨ b.textContent = " B") →
        isHighlighted (highlightFilters doc rowData) q) ∧
      (value = "A, B" → b.textContent = "B" →
        ¬ isHighlighted (highlightFilters doc rowData) q) := by
  have h := highlightFilters_button doc rowData q b F hb hk
  simp only [hv, Option.some.injEq, exists_eq_left'] at h
  have hsplit : split "A, B" ',' = ["A", " B"] := by decide
  refine ⟨?_, ?_, hsplit, ?_, ?_⟩
  · intro hc
    rw [h]
    simp only [hc, true_and]
  · intro hc
    rw [h]
    simp only [hc, Bool.false_eq_true, false_and, false_or]
  · intro hval htext
    subst hval
    rw [h]
    left
    refine ⟨by decide, ?_⟩
    rw [hsplit]
    rcases htext with ht | ht <;> simp [ht]
  · intro hval htext
    subst hval
    rw [h, hsplit, htext]
    rintro (⟨_, hmem⟩ | hfind)
    · revert hmem
      decide
    · have hm := List.find?_some hfind
      rw [matchesBtn_iff, hb] at hm
      obtain ⟨_, b₀, hb₀, ht₀⟩ := hm
      simp only [Option.some.injEq] at hb₀
      rw [← hb₀, htext] at ht₀
      revert ht₀
      decide

/-- Witness for C9: the button B under F for the row value "A, B". -/
theorem C9_highlight_tokens_witness :
    ¬ isHighlighted (highlightFilters [⟨"F", [mkBtn "A", mkBtn "B"]⟩] [("F", "A, B")]) (0, 1) :=
  (C9_highlight_tokens [⟨"F", [mkBtn "A", mkBtn "B"]⟩] [("F", "A, B")] "F" "A, B" (0, 1)
    (mkBtn "B") (by decide) (by decide) (by decide)).2.2.2.2 rfl rfl

/-! ## Facts about the availability check -/

theorem map_modify_comm {α β : Type} (g : α → β) (f : α → α) (f' : β → β)
    (h : ∀ a, g (f a) = f' (g a)) (n : Nat) (l : List α) :
    (List.modify f n l).map g = List.modify f' n (l.map g) := by
  induction l generalizing n with
  | nil => cases n <;> rfl
  | cons a l ih =>
    cases n with
    | zero => simp [List.modify_zero_cons, h]
    | succ n => simp [List.modify_succ_cons, ih]

theorem modifyBtn_comp (d : Document) (p : BtnRef) (f g : FilterBtn → FilterBtn) :
    modifyBtn (modifyBtn d p f) p g = modifyBtn d p (g ∘ f) := by
  unfold modifyBtn
  rw [List.modify_modify_eq]
  congr 1
  funext grp
  simp [List.modify_modify_eq]

theorem activeView_modifyBtn (d : Document) (p : BtnRef) (f : FilterBtn → FilterBtn)
    (f' : String × Bool → String × Bool) (h : ∀ b, btnView (f b) = f' (btnView b)) :
    activeView (modifyBtn d p f) =
      List.modify (fun kv => (kv.1, List.modify f' p.2 kv.2)) p.1 (activeView d) := by
  unfold activeView modifyBtn
  apply map_modify_comm
  intro grp
  simp only [Prod.mk.injEq, true_and]
  exact map_modify_comm btnView f f' h p.2 grp.buttons

theorem activeView_modifyBtn_same (d : Document) (p : BtnRef) (f : FilterBtn → FilterBtn)
    (h : ∀ b, btnView (f b) = btnView b) : activeView (modifyBtn d p f) = activeView d := by
  rw [activeView_modifyBtn d p f id h]
  have : (fun kv : String × List (String × Bool) => (kv.1, List.modify id p.2 kv.2)) = id := by
    funext kv
    simp [List.modify_id]
  rw [this, List.modify_id]

theorem collectActiveFilters_congr (d d' : Document) (h : activeView d = activeView d') :
    collectActiveFilters d = collectActiveFilters d' := by
  have key : ∀ d : Document, collectActiveFilters d =
      (activeView d).foldl
        (fun acc kv =>
          if ((kv.2.filter fun x => x.2).map fun x => x.1).length > 0 then
            Obj.set acc kv.1 ((kv.2.filter fun x => x.2).map fun x => x.1)
          else acc)
        [] := by
    intro d
    unfold collectActiveFilters activeView
    rw [List.foldl_map]
    congr 1
    funext acc grp
    have : activeValues grp =
        ((grp.buttons.map btnView).filter fun x => x.2).map fun x => x.1 := by
      unfold activeValues
      rw [List.filter_map, List.map_map]
      rfl
    simp only [this]
  rw [key d, key d', h]

theorem view_getBtn (d d' : Document) (h : activeView d = activeView d') (q : BtnRef) :
    btnKey d q = btnKey d' q ∧ (getBtn d q).map btnView = (getBtn d' q).map btnView := by
  have h1 : (activeView d)[q.1]? = (activeView d')[q.1]? := by rw [h]
  simp only [activeView, List.getElem?_map] at h1
  unfold btnKey getBtn
  cases hg : d[q.1]? with
  | none =>
    cases hg' : d'[q.1]? with
    | none => simp
    | some g' => simp [hg, hg'] at h1
  | some g =>
    cases hg' : d'[q.1]? with
    | none => simp [hg, hg'] at h1
    | some g' =>
      simp only [hg, hg', Option.map_some', Option.some.injEq, Prod.mk.injEq] at h1
      refine ⟨by simp [h1.1], ?_⟩
      have h2 : (g.buttons.map btnView)[q.2]? = (g'.buttons.map btnView)[q.2]? := by rw [h1.2]
      simpa [List.getElem?_map] using h2

theorem toggledTotal_congr (papers tools : List Record) (d d' : Document)
    (h : activeView d = activeView d') (p : BtnRef) :
    toggledTotal papers tools d p = toggledTotal papers tools d' p := by
  unfold toggledTotal
  have hv : activeView (modifyBtn d p toggleActive) = activeView (modifyBtn d' p toggleActive) := by
    rw [activeView_modifyBtn d p toggleActive (fun x => (x.1, !x.2)) (fun _ => rfl),
      activeView_modifyBtn d' p toggleActive (fun x => (x.1, !x.2)) (fun _ => rfl), h]
  rw [collectActiveFilters_congr _ _ hv]

/-- One round of `updateDisabledButtons` rewrites the classes of its button only. -/
theorem updateButton_eq (papers tools : List Record) (tab : String) (d : Document)
    (p : BtnRef) (bd : FilterBtn) (hb : getBtn d p = some bd) :
    ∃ f : FilterBtn → FilterBtn,
      updateButton papers tools tab d p = modifyBtn d p f ∧
        (∀ b, btnView (f b) = btnView b) ∧
        (∀ b, (f b).buttonDisabled = (toggledTotal papers tools d p == 0 && !bd.active)) := by
  have hk : ∃ k, btnKey d p = some k := by
    unfold getBtn at hb
    unfold btnKey
    cases hg : d[p.1]? with
    | none => simp [hg] at hb
    | some g => exact ⟨_, rfl⟩
  obtain ⟨k, hk⟩ := hk
  have htt : ∀ b, btnView (toggleActive (toggleActive b)) = btnView b := by
    intro b
    simp [btnView, toggleActive]
  unfold updateButton
  simp only [hk, hb, modifyBtn_comp]
  change ∃ f, (if (toggledTotal papers tools d p == 0 && !bd.active) = true then _ else _) = _ ∧ _
  cases hflag : (toggledTotal papers tools d p == 0 && !bd.active) with
  | true =>
    refine ⟨_, by rw [if_pos rfl], ?_, ?_⟩
    · intro b
      simp [btnView, toggleActive]
    · intro b
      rfl
  | false =>
    rw [if_neg (by simp)]
    by_cases h2 : (toolsOnlyFields.contains k && tab == "tools-tab" && bd.active) = true
    · refine ⟨_, by rw [if_pos h2], ?_, ?_⟩
      · intro b
        simp [btnView, toggleActive]
      · intro b
        rfl
    · refine ⟨_, by rw [if_neg h2], ?_, ?_⟩
      · intro b
        simp [btnView, toggleActive]
      · intro b
        rfl

theorem updateButton_invalid (papers tools : List Record) (tab : String) (d : Document)
    (p : BtnRef) (hb : getBtn d p = none) : updateButton papers tools tab d p = d := by
  unfold updateButton
  rw [hb]
  cases btnKey d p <;> rfl

theorem updateFold_spec (papers tools : List Record) (tab : String) (doc : Document)
    (ps : List BtnRef) :
    ∀ d : Document, activeView d = activeView doc →
      activeView (ps.foldl (updateButton papers tools tab) d) = activeView doc ∧
        ∀ q,
          (q ∈ ps → ∀ b, getBtn doc q = some b →
            ∃ b', getBtn (ps.foldl (updateButton papers tools tab) d) q = some b' ∧
              btnView b' = btnView b ∧
              b'.buttonDisabled = (toggledTotal papers tools doc q == 0 && !b.active)) ∧
          (q ∉ ps → getBtn (ps.foldl (updateButton papers tools tab) d) q = getBtn d q) := by
  induction ps with
  | nil =>
    intro d hd
    exact ⟨hd, fun q => ⟨fun h => absurd h (List.not_mem_nil q), fun _ => rfl⟩⟩
  | cons p ps ih =>
    intro d hd
    -- the round for `p`
    have hstep : activeView (updateButton papers tools tab d p) = activeView doc ∧
        (∀ q, q ≠ p → getBtn (updateButton papers tools tab d p) q = getBtn d q) ∧
        (∀ b, getBtn doc p = some b →
          ∃ b', getBtn (updateButton papers tools tab d p) p = some b' ∧
            btnView b' = btnView b ∧
            b'.buttonDisabled = (toggledTotal papers tools doc p == 0 && !b.active)) := by
      cases hbd : getBtn d p with
      | none =>
        rw [updateButton_invalid papers tools tab d p hbd]
        refine ⟨hd, fun _ _ => rfl, ?_⟩
        intro b hb
        have := (view_getBtn d doc hd p).2
        rw [hbd, hb] at this
        simp at this
      | some bd =>
        obtain ⟨f, hf, hview, hflag⟩ := updateButton_eq papers tools tab d p bd hbd
        rw [hf]
        refine ⟨(activeView_modifyBtn_same d p f hview).trans hd, ?_, ?_⟩
        · intro q hq
          rw [getBtn_modifyBtn, if_neg (fun h => hq h.symm)]
        · intro b hb
          have hv := (view_getBtn d doc hd p).2
          rw [hbd, hb] at hv
          simp only [Option.map_some', Option.some.injEq] at hv
          refine ⟨f bd, by rw [getBtn_modifyBtn]; simp [hbd], (hview bd).trans hv, ?_⟩
          rw [hflag bd, toggledTotal_congr papers tools d doc hd p]
          have : bd.active = b.active := congrArg Prod.snd hv
          rw [this]
    obtain ⟨hs1, hs2, hs3⟩ := hstep
    obtain ⟨r1, r2⟩ := ih (updateButton papers tools tab d p) hs1
    refine ⟨r1, ?_⟩
    intro q
    rw [List.foldl_cons]
    constructor
    · intro hq b hb
      by_cases hmem : q ∈ ps
      · exact (r2 q).1 hmem b hb
      · have hqp : q = p := by
          rcases List.mem_cons.1 hq with h | h
          · exact h
          · exact absurd h hmem
        subst hqp
        rw [(r2 q).2 hmem]
        exact hs3 b hb
    · intro hq
      have hne : q ≠ p := fun h => hq (by rw [h]; exact List.mem_cons_self _ _)
      have hmem : q ∉ ps := fun h => hq (List.mem_cons_of_mem _ h)
      rw [(r2 q).2 hmem, hs2 q hne]

/-- The class `button-disabled` of every button after `updateDisabledButtons`. -/
theorem updateDisabledButtons_flag (papers tools : List Record) (tab : String)
    (doc : Document) (q : BtnRef) (b : FilterBtn) (hb : getBtn doc q = some b) :
    ∃ b', getBtn (updateDisabledButtons papers tools tab doc) q = some b' ∧
      btnView b' = btnView b ∧
      b'.buttonDisabled = (toggledTotal papers tools doc q == 0 && !b.active) :=
  ((updateFold_spec papers tools tab doc (allFilterBtns doc) doc rfl).2 q).1
    ((mem_allFilterBtns doc q).2 ⟨b, hb⟩) b hb

/-! ## The toggled selection -/

theorem Obj.get_set {β : Type} (o : Obj β) (k k' : String) (v : β) :
    Obj.get (Obj.set o k v) k' = if k = k' then some v else Obj.get o k' := by
  induction o with
  | nil => simp [Obj.set, Obj.get]
  | cons p rest ih =>
    obtain ⟨k₀, v₀⟩ := p
    unfold Obj.set
    by_cases h : k₀ = k
    · subst h
      by_cases h' : k₀ = k' <;> simp [Obj.get, h']
    · simp only [h, if_false]
      unfold Obj.get
      by_cases h' : k₀ = k'
      · subst h'
        simp [Ne.symm h]
      · simp only [h', if_false]
        exact ih

theorem Obj.get_delete {β : Type} (o : Obj β) (k k' : String) :
    Obj.get (Obj.delete o k) k' = if k = k' then none else Obj.get o k' := by
  induction o with
  | nil => simp [Obj.delete, Obj.get]
  | cons p rest ih =>
    obtain ⟨k₀, v₀⟩ := p
    unfold Obj.delete at ih ⊢
    by_cases h : k₀ = k
    · subst h
      simp only [List.filter_cons, ne_eq, not_true_eq_false, decide_False, Bool.false_eq_true,
        if_false]
      rw [ih]
      by_cases h' : k₀ = k'
      · simp [h']
      · simp [Obj.get, h']
    · simp only [List.filter_cons, ne_eq, h, not_false_eq_true, decide_True, if_true]
      unfold Obj.get
      by_cases h' : k₀ = k'
      · subst h'
        simp [Ne.symm h]
      · simp only [h', if_false]
        exact ih

/-- The entry of one field in the collected selection, as a fold over the groups. -/
theorem collect_get_fold (F : String) (l : List FilterGroup) (acc : Selection) :
    Obj.get
        (l.foldl
          (fun acc filterGroup =>
            if (activeValues filterGroup).length > 0 then
              Obj.set acc filterGroup.filterKey (activeValues filterGroup)
            else acc)
          acc) F =
      l.foldl
        (fun x g =>
          if g.filterKey = F ∧ (activeValues g).length > 0 then some (activeValues g) else x)
        (Obj.get acc F) := by
  induction l generalizing acc with
  | nil => rfl
  | cons g rest ih =>
    rw [List.foldl_cons, List.foldl_cons, ih]
    congr 1
    by_cases hlen : (activeValues g).length > 0
    · simp only [hlen, if_true, and_true, Obj.get_set]
    · simp only [hlen, if_false, and_false]

theorem fieldFold_skip (F : String) (l : List FilterGroup) (x : Option (List String))
    (h : ∀ g ∈ l, g.filterKey ≠ F) :
    l.foldl
        (fun x g =>
          if g.filterKey = F ∧ (activeValues g).length > 0 then some (activeValues g) else x)
        x = x := by
  induction l generalizing x with
  | nil => rfl
  | cons g rest ih =>
    rw [List.foldl_cons]
    have hg : g.filterKey ≠ F := h g (List.mem_cons_self _ _)
    simp only [hg, false_and, if_false]
    exact ih x fun g' hg' => h g' (List.mem_cons_of_mem _ hg')

/-- The entry of a field in the selection collected from `pre ++ g :: post`. -/
theorem collect_get_split (F : String) (before after : List FilterGroup) (g : FilterGroup) :
    Obj.get (collectActiveFilters (before ++ g :: after)) F =
      after.foldl
        (fun x g =>
          if g.filterKey = F ∧ (activeValues g).length > 0 then some (activeValues g) else x)
        (if g.filterKey = F ∧ (activeValues g).length > 0 then some (activeValues g)
          else
            before.foldl
              (fun x g =>
                if g.filterKey = F ∧ (activeValues g).length > 0 then some (activeValues g)
                else x)
              (none : Option (List String))) := by
  unfold collectActiveFilters
  rw [collect_get_fold, List.foldl_append, List.foldl_cons]
  rfl

theorem activeValues_split (k : String) (l₁ l₂ : List FilterBtn) (b : FilterBtn) :
    activeValues ⟨k, l₁ ++ b :: l₂⟩ =
      activeValues ⟨k, l₁⟩ ++ (if b.active = true then [b.textContent] else []) ++
        activeValues ⟨k, l₂⟩ := by
  unfold activeValues
  cases hb : b.active <;> simp [List.filter_cons, hb]

theorem activeValues_subset (k : String) (l : List FilterBtn) (t : String)
    (h : t ∈ activeValues ⟨k, l⟩) : t ∈ l.map fun btn => btn.textContent := by
  unfold activeValues at h
  simp only [List.mem_map, List.mem_filter] at h ⊢
  obtain ⟨b, ⟨hb, _⟩, ht⟩ := h
  exact ⟨b, hb, ht⟩

theorem cond_congr (o₁ o₂ : Option (List String))
    (hsome : (∃ s, o₁ = some s) ↔ ∃ s, o₂ = some s)
    (hmem : ∀ x, (∃ s, o₁ = some s ∧ x ∈ s) ↔ ∃ s, o₂ = some s ∧ x ∈ s) (r : Record)
    (F : String) :
    (∀ selected, o₁ = some selected →
        (Obj.get r F = none ∨ ∃ v, Obj.get r F = some v ∧ v ∈ selected)) ↔
      ∀ selected, o₂ = some selected →
        (Obj.get r F = none ∨ ∃ v, Obj.get r F = some v ∧ v ∈ selected) := by
  have aux : ∀ a b : Option (List String), ((∃ s, b = some s) → ∃ s, a = some s) →
      (∀ x, (∃ s, a = some s ∧ x ∈ s) → ∃ s, b = some s ∧ x ∈ s) →
      (∀ selected, a = some selected →
        (Obj.get r F = none ∨ ∃ v, Obj.get r F = some v ∧ v ∈ selected)) →
      ∀ selected, b = some selected →
        (Obj.get r F = none ∨ ∃ v, Obj.get r F = some v ∧ v ∈ selected) := by
    intro a b hs hm h selected hb
    obtain ⟨sa, ha⟩ := hs ⟨selected, hb⟩
    rcases h sa ha with h1 | ⟨v, hv, hmemv⟩
    · exact Or.inl h1
    · right
      obtain ⟨s, hs', hx⟩ := hm v ⟨sa, ha, hmemv⟩
      rw [hb] at hs'
      cases hs'
      exact ⟨v, hv, hx⟩
  exact ⟨aux o₁ o₂ hsome.2 (fun x => (hmem x).1), aux o₂ o₁ hsome.1 (fun x => (hmem x).2)⟩

theorem toggleSelection_get_ne (S : Selection) (k t : String) (act : Bool) (F : String)
    (hF : k ≠ F) : Obj.get (toggleSelection S k t act) F = Obj.get S F := by
  unfold toggleSelection
  cases act with
  | true =>
    simp only [if_true]
    cases hS : Obj.get S k with
    | none => rfl
    | some selected =>
      simp only
      split_ifs
      · rw [Obj.get_delete, if_neg hF]
      · rw [Obj.get_set, if_neg hF]
  | false =>
    simp only [Bool.false_eq_true, if_false]
    cases hS : Obj.get S k with
    | none => simp only; rw [Obj.get_set, if_neg hF]
    | some selected => simp only; rw [Obj.get_set, if_neg hF]

theorem filter_ne_of_not_mem (t : String) (l : List String) (h : t ∉ l) :
    (l.filter fun v => v ≠ t) = l := by
  rw [List.filter_eq_self]
  intro a ha
  simp only [ne_eq, decide_not, Bool.not_eq_eq_eq_not, Bool.not_true, decide_eq_false_iff_not]
  intro e
  exact h (e ▸ ha)

theorem toggleSelection_get_self (S : Selection) (k t : String) (act : Bool) :
    Obj.get (toggleSelection S k t act) k =
      if act = true then
        match Obj.get S k with
        | none => none
        | some selected =>
          if (selected.filter fun v => v ≠ t) = [] then none
          else some (selected.filter fun v => v ≠ t)
      else some ((Obj.get S k).getD [] ++ [t]) := by
  unfold toggleSelection
  cases act with
  | true =>
    simp only [if_true]
    cases hS : Obj.get S k with
    | none => simp only [hS]
    | some selected =>
      simp only
      split_ifs
      · rw [Obj.get_delete, if_pos rfl]
      · rw [Obj.get_set, if_pos rfl]
  | false =>
    simp only [Bool.false_eq_true, if_false]
    cases hS : Obj.get S k with
    | none => simp only; rw [Obj.get_set, if_pos rfl]; rfl
    | some selected => simp only; rw [Obj.get_set, if_pos rfl]; rfl

/-- The two ways of toggling agree on the entry of the toggled field. -/
theorem toggle_lookup_agree (t : String) (act : Bool) (A₁ A₂ : List String)
    (hA₁ : act = true → t ∉ A₁) (hA₂ : act = true → t ∉ A₂) (r : Record) (F : String) :
    (∀ selected,
        (if (A₁ ++ (if (!act) = true then [t] else []) ++ A₂).length > 0 then
            some (A₁ ++ (if (!act) = true then [t] else []) ++ A₂)
          else none) = some selected →
        (Obj.get r F = none ∨ ∃ v, Obj.get r F = some v ∧ v ∈ selected)) ↔
      ∀ selected,
        (if act = true then
            match
              (if (A₁ ++ (if act = true then [t] else []) ++ A₂).length > 0 then
                some (A₁ ++ (if act = true then [t] else []) ++ A₂)
              else none) with
            | none => none
            | some selected =>
              if (selected.filter fun v => v ≠ t) = [] then none
              else some (selected.filter fun v => v ≠ t)
          else
            some
              ((if (A₁ ++ (if act = true then [t] else []) ++ A₂).length > 0 then
                    some (A₁ ++ (if act = true then [t] else []) ++ A₂)
                  else none).getD [] ++ [t])) = some selected →
        (Obj.get r F = none ∨ ∃ v, Obj.get r F = some v ∧ v ∈ selected) := by
  cases act with
  | false =>
    have h1 : (A₁ ++ [t] ++ A₂).length > 0 := by simp
    have h2 : (if (A₁ ++ A₂).length > 0 then some (A₁ ++ A₂) else none).getD [] = A₁ ++ A₂ := by
      by_cases hne : (A₁ ++ A₂).length > 0
      · rw [if_pos hne]; rfl
      · rw [if_neg hne]
        have : A₁ ++ A₂ = [] := by
          by_contra hcon
          exact hne (List.length_pos.2 hcon)
        rw [this]; rfl
    simp only [Bool.not_false, if_true, Bool.false_eq_true, if_false, List.append_nil, h1, h2]
    apply cond_congr
    · simp
    · intro x
      simp only [Option.some.injEq, exists_eq_left', List.mem_append, List.mem_singleton]
      tauto
  | true =>
    have h1 : (A₁ ++ [t] ++ A₂).length > 0 := by simp
    have hfil : ((A₁ ++ [t] ++ A₂).filter fun v => v ≠ t) = A₁ ++ A₂ := by
      rw [List.filter_append, List.filter_append, filter_ne_of_not_mem _ _ (hA₁ rfl),
        filter_ne_of_not_mem _ _ (hA₂ rfl)]
      simp
    simp only [Bool.not_true, Bool.false_eq_true, if_false, if_true, List.append_nil, h1, hfil]
    by_cases hne : A₁ ++ A₂ = []
    · have hlen : ¬ (A₁ ++ A₂).length > 0 := by rw [hne]; simp
      rw [if_neg hlen, if_pos hne]
    · have hlen : (A₁ ++ A₂).length > 0 := List.length_pos.2 hne
      rw [if_pos hlen, if_neg hne]

/-- Toggling a button in the page and collecting again selects the same records
as toggling its pair in the collected selection, for a page in which the key of
the group and the text of the button identify the button. -/
theorem passes_toggle_split (before after : List FilterGroup) (k : String)
    (l₁ l₂ : List FilterBtn) (b : FilterBtn)
    (hkeys : ∀ g ∈ before ++ after, g.filterKey ≠ k)
    (ht₁ : b.active = true → b.textContent ∉ l₁.map fun btn => btn.textContent)
    (ht₂ : b.active = true → b.textContent ∉ l₂.map fun btn => btn.textContent) (r : Record) :
    passesFilters (collectActiveFilters (before ++ ⟨k, l₁ ++ toggleActive b :: l₂⟩ :: after)) r =
      passesFilters
        (toggleSelection (collectActiveFilters (before ++ ⟨k, l₁ ++ b :: l₂⟩ :: after)) k
          b.textContent b.active) r := by
  have hA₁ : b.active = true → b.textContent ∉ activeValues ⟨k, l₁⟩ := fun ha h =>
    ht₁ ha (activeValues_subset k l₁ _ h)
  have hA₂ : b.active = true → b.textContent ∉ activeValues ⟨k, l₂⟩ := fun ha h =>
    ht₂ ha (activeValues_subset k l₂ _ h)
  have hbefore : ∀ g ∈ before, g.filterKey ≠ k := fun g hg =>
    hkeys g (List.mem_append_left _ hg)
  have hafter : ∀ g ∈ after, g.filterKey ≠ k := fun g hg =>
    hkeys g (List.mem_append_right _ hg)
  have hlook : ∀ g : FilterGroup, g.filterKey = k →
      Obj.get (collectActiveFilters (before ++ g :: after)) k =
        if (activeValues g).length > 0 then some (activeValues g) else none := by
    intro g hgk
    rw [collect_get_split, fieldFold_skip k after _ hafter, fieldFold_skip k before _ hbefore]
    simp only [hgk, true_and]
  rw [Bool.eq_iff_iff, passesFilters_iff, passesFilters_iff]
  apply forall_congr'
  intro F
  by_cases hF : k = F
  · subst hF
    rw [toggleSelection_get_self, hlook _ rfl, hlook _ rfl, activeValues_split,
      activeValues_split]
    exact toggle_lookup_agree b.textContent b.active _ _ hA₁ hA₂ r k
  · rw [toggleSelection_get_ne _ _ _ _ _ hF, collect_get_split, collect_get_split]
    simp only [hF, false_and, if_false]

theorem split_at_index {α : Type} (l : List α) (i : Nat) (a : α) (h : l[i]? = some a) :
    ∃ l₁ l₂, l = l₁ ++ a :: l₂ ∧ ∀ f : α → α, List.modify f i l = l₁ ++ f a :: l₂ := by
  induction l generalizing i with
  | nil => simp at h
  | cons x xs ih =>
    cases i with
    | zero =>
      simp only [List.getElem?_cons_zero, Option.some.injEq] at h
      subst h
      exact ⟨[], xs, rfl, fun f => rfl⟩
    | succ n =>
      simp only [List.getElem?_cons_succ] at h
      obtain ⟨l₁, l₂, h1, h2⟩ := ih n h
      refine ⟨x :: l₁, l₂, by rw [h1]; rfl, ?_⟩
      intro f
      rw [List.modify_succ_cons, h2 f]
      rfl

/-- The total the check computes for a button is the total under the selection
with the pair of the button toggled, when no two groups share a key and, for an
active button, the texts within a group are distinct. -/
theorem toggledTotal_eq (papers tools : List Record) (doc : Document) (hkeys : DistinctKeys doc)
    (q : BtnRef) (b : FilterBtn) (k : String) (hb : getBtn doc q = some b)
    (hk : btnKey doc q = some k) (htexts : b.active = true → DistinctTexts doc) :
    toggledTotal papers tools doc q =
      (filterRecords (toggleSelection (collectActiveFilters doc) k b.textContent b.active)
          papers).length +
        (filterRecords (toggleSelection (collectActiveFilters doc) k b.textContent b.active)
          tools).length := by
  obtain ⟨i, j⟩ := q
  unfold getBtn at hb
  unfold btnKey at hk
  cases hg : doc[i]? with
  | none => simp [hg] at hb
  | some g =>
    simp only [hg, Option.some.injEq] at hb hk
    obtain ⟨before, after, hdoc, hmod⟩ := split_at_index doc i g hg
    obtain ⟨l₁, l₂, hbtn, hmodb⟩ := split_at_index g.buttons j b hb
    have hgeq : g = ⟨k, l₁ ++ b :: l₂⟩ := by
      cases g with
      | mk key buttons =>
        simp only at hk hbtn
        rw [hk, hbtn]
    have hkeys' : ∀ g' ∈ before ++ after, g'.filterKey ≠ k := by
      have hn : (doc.map fun g => g.filterKey).Nodup := hkeys
      rw [hdoc, List.map_append, List.map_cons] at hn
      have hn' := (List.nodup_middle.1 hn)
      rw [List.nodup_cons] at hn'
      intro g' hg' hkk
      apply hn'.1
      rw [← List.map_append, hk, ← hkk]
      exact List.mem_map_of_mem _ hg'
    have hn2 : b.active = true →
        b.textContent ∉ (l₁.map fun btn => btn.textContent) ++
          l₂.map fun btn => btn.textContent := by
      intro hact
      have ht : (g.buttons.map fun btn => btn.textContent).Nodup :=
        htexts hact g (by rw [hdoc]; simp)
      rw [hbtn, List.map_append, List.map_cons] at ht
      have := List.nodup_middle.1 ht
      rw [List.nodup_cons] at this
      exact this.1
    have ht₁ : b.active = true → b.textContent ∉ l₁.map fun btn => btn.textContent :=
      fun ha h => hn2 ha (List.mem_append_left _ h)
    have ht₂ : b.active = true → b.textContent ∉ l₂.map fun btn => btn.textContent :=
      fun ha h => hn2 ha (List.mem_append_right _ h)
    have hdocT : modifyBtn doc (i, j) toggleActive =
        before ++ ⟨k, l₁ ++ toggleActive b :: l₂⟩ :: after := by
      unfold modifyBtn
      rw [hmod]
      simp only [hmodb, hk]
    have hdoc' : doc = before ++ ⟨k, l₁ ++ b :: l₂⟩ :: after := by rw [hdoc, hgeq]
    unfold toggledTotal filterRecords
    rw [hdocT]
    have hfun : passesFilters
          (collectActiveFilters (before ++ ⟨k, l₁ ++ toggleActive b :: l₂⟩ :: after)) =
        passesFilters (toggleSelection (collectActiveFilters doc) k b.textContent b.active) := by
      funext r
      rw [hdoc']
      exact passes_toggle_split before after k l₁ l₂ b hkeys' ht₁ ht₂ r
    rw [hfun]

/-! ## Claim on the availability of buttons -/

/-- C2: for every pair of datasets and every page (no two groups sharing a
field), `updateDisabledButtons` marks a button disabled iff the number of papers
plus the number of tools that pass under the selection with the pair of the
button toggled is zero and the button is not active; an active button is never
disabled. The button keeps its text and its active state, and when button texts
are distinct within each group the total the function computes for the button is
that combined count. -/
theorem C2_button_disabled_iff (papers tools : List Record) (activeTab : String)
    (doc : Document) (hkeys : DistinctKeys doc) (q : BtnRef) (b : FilterBtn) (F : String)
    (hb : getBtn doc q = some b) (hF : btnKey doc q = some F) :
    ∃ b', getBtn (updateDisabledButtons papers tools activeTab doc) q = some b' ∧
      b'.textContent = b.textContent ∧ b'.active = b.active ∧
      (b'.buttonDisabled = true ↔
        ((filterRecords (toggleSelection (collectActiveFilters doc) F b.textContent b.active)
              papers).length +
            (filterRecords (toggleSelection (collectActiveFilters doc) F b.textContent b.active)
              tools).length = 0 ∧
          b.active = false)) ∧
      (b.active = true → b'.buttonDisabled = false) ∧
      (DistinctTexts doc →
        toggledTotal papers tools doc q =
          (filterRecords (toggleSelection (collectActiveFilters doc) F b.textContent b.active)
              papers).length +
            (filterRecords (toggleSelection (collectActiveFilters doc) F b.textContent b.active)
              tools).length) := by
  obtain ⟨b', hb', hview, hflag⟩ := updateDisabledButtons_flag papers tools activeTab doc q b hb
  refine ⟨b', hb', congrArg Prod.fst hview, congrArg Prod.snd hview, ?_, ?_, ?_⟩
  · cases hact : b.active with
    | true =>
      rw [hflag, hact]
      simp
    | false =>
      rw [hflag, toggledTotal_eq papers tools doc hkeys q b F hb hF (by simp [hact]), hact]
      simp
  · intro hact
    rw [hflag, hact]
    simp
  · intro htexts
    exact toggledTotal_eq papers tools doc hkeys q b F hb hF fun _ => htexts

/-- Witness for C2: the inactive button B of field F, with one paper whose F is A. -/
theorem C2_button_disabled_iff_witness :
    ∃ b', getBtn
          (updateDisabledButtons [[("F", "A")]] [] "papers-tab"
            [⟨"F", [mkBtn "A", mkBtn "B"]⟩, ⟨"G", [mkBtn "X"]⟩])
          (0, 1) = some b' ∧
      b'.textContent = (mkBtn "B").textContent ∧ b'.active = (mkBtn "B").active ∧
      (b'.buttonDisabled = true ↔
        ((filterRecords
              (toggleSelection
                (collectActiveFilters [⟨"F", [mkBtn "A", mkBtn "B"]⟩, ⟨"G", [mkBtn "X"]⟩]) "F"
                (mkBtn "B").textContent (mkBtn "B").active)
              [[("F", "A")]]).length +
            (filterRecords
              (toggleSelection
                (collectActiveFilters [⟨"F", [mkBtn "A", mkBtn "B"]⟩, ⟨"G", [mkBtn "X"]⟩]) "F"
                (mkBtn "B").textContent (mkBtn "B").active)
              []).length = 0 ∧
          (mkBtn "B").active = false)) ∧
      ((mkBtn "B").active = true → b'.buttonDisabled = false) ∧
      (DistinctTexts [⟨"F", [mkBtn "A", mkBtn "B"]⟩, ⟨"G", [mkBtn "X"]⟩] →
        toggledTotal [[("F", "A")]] [] [⟨"F", [mkBtn "A", mkBtn "B"]⟩, ⟨"G", [mkBtn "X"]⟩]
            (0, 1) =
          (filterRecords
              (toggleSelection
                (collectActiveFilters [⟨"F", [mkBtn "A", mkBtn "B"]⟩, ⟨"G", [mkBtn "X"]⟩]) "F"
                (mkBtn "B").textContent (mkBtn "B").active)
              [[("F", "A")]]).length +
            (filterRecords
              (toggleSelection
                (collectActiveFilters [⟨"F", [mkBtn "A", mkBtn "B"]⟩, ⟨"G", [mkBtn "X"]⟩]) "F"
                (mkBtn "B").textContent (mkBtn "B").active)
              []).length) :=
  C2_button_disabled_iff [[("F", "A")]] [] "papers-tab"
    [⟨"F", [mkBtn "A", mkBtn "B"]⟩, ⟨"G", [mkBtn "X"]⟩]
    (by decide) (0, 1) (mkBtn "B") "F" (by decide) (by decide)

/-! ## Facts about rendering and `applyFilters` -/

theorem sortedResearchData_perm (toLowerCase : String → String) (currentSort : SortState)
    (l : List Record) : (sortedResearchData toLowerCase currentSort l).Perm l := by
  unfold sortedResearchData
  cases currentSort.column with
  | none => exact sortData_perm _ _ _ _
  | some column =>
    simp only
    split_ifs
    · exact sortData_perm _ _ _ _
    · exact sortData_perm _ _ _ _

theorem sortedToolsData_perm (toLowerCase : String → String) (currentSort : SortState)
    (l : List Record) : (sortedToolsData toLowerCase currentSort l).Perm l := by
  unfold sortedToolsData
  cases currentSort.column with
  | none => exact sortData_perm _ _ _ _
  | some column =>
    simp only
    split_ifs
    · exact sortData_perm _ _ _ _
    · exact sortData_perm _ _ _ _

theorem renderTable_papers (originalResearchData originalToolsData data : List Record)
    (page : Page) (h : ∀ r ∈ data, (Obj.get r "DOI_URL").isSome = true) :
    renderTable originalResearchData originalToolsData data "papers-table" false page =
      some
        { page with
          researchCount :=
            page.researchCount.map fun _ => countText false data.length originalResearchData.length
          noDataMessage := data.length == 0
          papersBody := data } := by
  have hall : data.all (rowRenders false) = true := by
    rw [List.all_eq_true]
    intro r hr
    simpa [rowRenders] using h r hr
  simp [renderTable, hall]

theorem renderTable_tools (originalResearchData originalToolsData data : List Record)
    (page : Page) (h : ∀ r ∈ data, (Obj.get r "Link").isSome = true) :
    renderTable originalResearchData originalToolsData data "tools-table" true page =
      some
        { page with
          toolsCount :=
            page.toolsCount.map fun _ => countText true data.length originalToolsData.length
          noDataMessageTools := data.length == 0
          toolsBody := data } := by
  have hall : data.all (rowRenders true) = true := by
    rw [List.all_eq_true]
    intro r hr
    simpa [rowRenders] using h r hr
  simp [renderTable, hall]

/-- What a successful `renderTable` leaves in the two table bodies and the buttons. -/
theorem renderTable_frame (originalResearchData originalToolsData data : List Record)
    (tableId : String) (isTools : Bool) (page page' : Page)
    (h : renderTable originalResearchData originalToolsData data tableId isTools page =
      some page') :
    page'.doc = page.doc ∧
      (tableId = "papers-table" → page'.papersBody = data ∧ page'.toolsBody = page.toolsBody) ∧
      (tableId = "tools-table" → page'.toolsBody = data ∧ page'.papersBody = page.papersBody) := by
  unfold renderTable at h
  by_cases hall : data.all (rowRenders isTools) = true
  · simp only [hall, if_true] at h
    by_cases hp : tableId = "papers-table"
    · simp only [hp, if_true, Option.some.injEq] at h
      subst h
      refine ⟨?_, fun _ => ?_, fun ht => ?_⟩
      · cases isTools <;> rfl
      · cases isTools <;> exact ⟨rfl, rfl⟩
      · rw [hp] at ht
        exact absurd ht (by decide)
    · by_cases ht : tableId = "tools-table"
      · simp only [ht, if_true, Option.some.injEq] at h
        rw [if_neg (by decide)] at h
        simp only [Option.some.injEq] at h
        subst h
        refine ⟨?_, fun hp' => ?_, fun _ => ?_⟩
        · cases isTools <;> rfl
        · rw [ht] at hp'
          exact absurd hp' (by decide)
        · cases isTools <;> exact ⟨rfl, rfl⟩
      · simp [hp, ht] at h
  · simp [hall] at h

/-- Whenever `applyFilters` completes, the table bodies hold the two sorted lists. -/
theorem applyFilters_bodies (toLowerCase : String → String)
    (originalResearchData originalToolsData : List Record) (currentSort : SortState)
    (activeTab : String) (page page' : Page)
    (h : applyFilters toLowerCase originalResearchData originalToolsData currentSort activeTab
      page = some page') :
    page'.papersBody =
        sortedResearchData toLowerCase currentSort
          (filterRecords (collectActiveFilters page.doc) originalResearchData) ∧
      page'.toolsBody =
        sortedToolsData toLowerCase currentSort
          (filterRecords (collectActiveFilters page.doc) originalToolsData) := by
  unfold applyFilters at h
  simp only at h
  cases h1 : renderTable originalResearchData originalToolsData
      (sortedResearchData toLowerCase currentSort
        (filterRecords (collectActiveFilters page.doc) originalResearchData))
      "papers-table" false page with
  | none => simp [h1] at h
  | some page1 =>
    simp only [h1] at h
    cases h2 : renderTable originalResearchData originalToolsData
        (sortedToolsData toLowerCase currentSort
          (filterRecords (collectActiveFilters page.doc) originalToolsData))
        "tools-table" true page1 with
    | none => simp [h2] at h
    | some page2 =>
      simp only [h2, Option.some.injEq] at h
      subst h
      obtain ⟨_, f1, _⟩ := renderTable_frame _ _ _ _ _ _ _ h1
      obtain ⟨_, _, f2⟩ := renderTable_frame _ _ _ _ _ _ _ h2
      exact ⟨((f2 rfl).2).trans (f1 rfl).1, (f2 rfl).1⟩

/-- With a `DOI_URL` on every paper and a `Link` on every tool `applyFilters`
completes, with this page. -/
theorem applyFilters_ok (toLowerCase : String → String)
    (originalResearchData originalToolsData : List Record) (currentSort : SortState)
    (activeTab : String) (page : Page)
    (hR : ∀ r ∈ originalResearchData, (Obj.get r "DOI_URL").isSome = true)
    (hT : ∀ r ∈ originalToolsData, (Obj.get r "Link").isSome = true) :
    applyFilters toLowerCase originalResearchData originalToolsData currentSort activeTab page =
      some
        { doc := updateDisabledButtons originalResearchData originalToolsData activeTab page.doc
          papersBody :=
            sortedResearchData toLowerCase currentSort
              (filterRecords (collectActiveFilters page.doc) originalResearchData)
          toolsBody :=
            sortedToolsData toLowerCase currentSort
              (filterRecords (collectActiveFilters page.doc) originalToolsData)
          researchCount :=
            page.researchCount.map fun _ =>
              countText false
                (sortedResearchData toLowerCase currentSort
                  (filterRecords (collectActiveFilters page.doc) originalResearchData)).length
                originalResearchData.length
          toolsCount :=
            page.toolsCount.map fun _ =>
              countText true
                (sortedToolsData toLowerCase currentSort
                  (filterRecords (collectActiveFilters page.doc) originalToolsData)).length
                originalToolsData.length
          noDataMessage :=
            (sortedResearchData toLowerCase currentSort
              (filterRecords (collectActiveFilters page.doc) originalResearchData)).length == 0
          noDataMessageTools :=
            (sortedToolsData toLowerCase currentSort
              (filterRecords (collectActiveFilters page.doc) originalToolsData)).length == 0 } := by
  have h1 : ∀ r ∈ sortedResearchData toLowerCase currentSort
      (filterRecords (collectActiveFilters page.doc) originalResearchData),
      (Obj.get r "DOI_URL").isSome = true := by
    intro r hr
    have := (sortedResearchData_perm toLowerCase currentSort _).subset hr
    exact hR r (List.mem_of_mem_filter this)
  have h2 : ∀ r ∈ sortedToolsData toLowerCase currentSort
      (filterRecords (collectActiveFilters page.doc) originalToolsData),
      (Obj.get r "Link").isSome = true := by
    intro r hr
    have := (sortedToolsData_perm toLowerCase currentSort _).subset hr
    exact hT r (List.mem_of_mem_filter this)
  unfold applyFilters
  simp only [renderTable_papers _ _ _ _ h1, renderTable_tools _ _ _ _ h2]

/-! ## Claims on the sort choice of `applyFilters` and on removing a field -/

/-- C11: `applyFilters` orders the papers by the live sort column and direction
when the live sort targets `papers-table` with a column set, and by `Author`
ascending otherwise; it orders the tools by the live sort column and direction
when the live sort targets `tools-table` with a column set, and by `Name`
ascending otherwise; so one of the two tables is always in its default order.
The table bodies hold these two lists whenever `applyFilters` completes, and it
completes when every paper has a `DOI_URL` and every tool a `Link`. -/
theorem C11_applyFilters_sort_choice (toLowerCase : String → String)
    (originalResearchData originalToolsData : List Record) (currentSort : SortState)
    (activeTab : String) (page : Page) :
    (∀ column, currentSort.tableId = some "papers-table" → currentSort.column = some column →
        column ≠ "" →
        sortedResearchData toLowerCase currentSort
            (filterRecords (collectActiveFilters page.doc) originalResearchData) =
          sortData toLowerCase (filterRecords (collectActiveFilters page.doc) originalResearchData)
            column currentSort.ascending) ∧
      (¬ (currentSort.tableId = some "papers-table" ∧
            ∃ column, currentSort.column = some column ∧ column ≠ "") →
        sortedResearchData toLowerCase currentSort
            (filterRecords (collectActiveFilters page.doc) originalResearchData) =
          sortData toLowerCase (filterRecords (collectActiveFilters page.doc) originalResearchData)
            "Author" true) ∧
      (∀ column, currentSort.tableId = some "tools-table" → currentSort.column = some column →
        column ≠ "" →
        sortedToolsData toLowerCase currentSort
            (filterRecords (collectActiveFilters page.doc) originalToolsData) =
          sortData toLowerCase (filterRecords (collectActiveFilters page.doc) originalToolsData)
            column currentSort.ascending) ∧
      (¬ (currentSort.tableId = some "tools-table" ∧
            ∃ column, currentSort.column = some column ∧ column ≠ "") →
        sortedToolsData toLowerCase currentSort
            (filterRecords (collectActiveFilters page.doc) originalToolsData) =
          sortData toLowerCase (filterRecords (collectActiveFilters page.doc) originalToolsData)
            "Name" true) ∧
      (sortedResearchData toLowerCase currentSort
            (filterRecords (collectActiveFilters page.doc) originalResearchData) =
          sortData toLowerCase (filterRecords (collectActiveFilters page.doc) originalResearchData)
            "Author" true ∨
        sortedToolsData toLowerCase currentSort
            (filterRecords (collectActiveFilters page.doc) originalToolsData) =
          sortData toLowerCase (filterRecords (collectActiveFilters page.doc) originalToolsData)
            "Name" true) ∧
      (∀ page',
        applyFilters toLowerCase originalResearchData originalToolsData currentSort activeTab
            page = some page' →
          page'.papersBody =
              sortedResearchData toLowerCase currentSort
                (filterRecords (collectActiveFilters page.doc) originalResearchData) ∧
            page'.toolsBody =
              sortedToolsData toLowerCase currentSort
                (filterRecords (collectActiveFilters page.doc) originalToolsData)) ∧
      ((∀ r ∈ originalResearchData, (Obj.get r "DOI_URL").isSome = true) →
        (∀ r ∈ originalToolsData, (Obj.get r "Link").isSome = true) →
        ∃ page',
          applyFilters toLowerCase originalResearchData originalToolsData currentSort activeTab
            page = some page') := by
  have hP : ∀ l : List Record,
      ¬ (currentSort.tableId = some "papers-table" ∧
          ∃ column, currentSort.column = some column ∧ column ≠ "") →
      sortedResearchData toLowerCase currentSort l = sortData toLowerCase l "Author" true := by
    intro l hnot
    unfold sortedResearchData
    cases hc : currentSort.column with
    | none => rfl
    | some column =>
      simp only
      rw [if_neg]
      rintro ⟨h1, h2⟩
      exact hnot ⟨h1, column, hc, h2⟩
  have hT : ∀ l : List Record,
      ¬ (currentSort.tableId = some "tools-table" ∧
          ∃ column, currentSort.column = some column ∧ column ≠ "") →
      sortedToolsData toLowerCase currentSort l = sortData toLowerCase l "Name" true := by
    intro l hnot
    unfold sortedToolsData
    cases hc : currentSort.column with
    | none => rfl
    | some column =>
      simp only
      rw [if_neg]
      rintro ⟨h1, h2⟩
      exact hnot ⟨h1, column, hc, h2⟩
  refine ⟨?_, hP _, ?_, hT _, ?_, ?_, ?_⟩
  · intro column ht hc hne
    unfold sortedResearchData
    simp only [hc]
    rw [if_pos ⟨ht, hne⟩]
  · intro column ht hc hne
    unfold sortedToolsData
    simp only [hc]
    rw [if_pos ⟨ht, hne⟩]
  · by_cases hp : currentSort.tableId = some "papers-table"
    · right
      apply hT
      rintro ⟨ht, _⟩
      rw [hp] at ht
      exact absurd ht (by decide)
    · left
      apply hP
      rintro ⟨ht, _⟩
      exact hp ht
  · intro page' h
    exact applyFilters_bodies toLowerCase _ _ currentSort activeTab page page' h
  · intro hR hT'
    exact ⟨_, applyFilters_ok toLowerCase _ _ currentSort activeTab page hR hT'⟩

/-- Witness for C11: a live sort on the papers table, column Year, descending. -/
theorem C11_applyFilters_sort_choice_witness :
    sortedResearchData asciiLower ⟨some "papers-table", some "Year", false⟩
        (filterRecords (collectActiveFilters [⟨"F", [mkBtn "A"]⟩])
          [[("Author", "Jones"), ("Year", "2019")], [("Author", "Smith"), ("Year", "2020")]]) =
      sortData asciiLower
        (filterRecords (collectActiveFilters [⟨"F", [mkBtn "A"]⟩])
          [[("Author", "Jones"), ("Year", "2019")], [("Author", "Smith"), ("Year", "2020")]])
        "Year" false :=
  (C11_applyFilters_sort_choice asciiLower
    [[("Author", "Jones"), ("Year", "2019")], [("Author", "Smith"), ("Year", "2020")]] []
    ⟨some "papers-table", some "Year", false⟩ "papers-tab"
    ⟨[⟨"F", [mkBtn "A"]⟩], [], [], none, none, false, false⟩).1 "Year" rfl rfl (by decide)

/-- C13: removing the entry of a field from a selection cannot decrease the number
of records that pass the filter. -/
theorem C13_remove_field_monotone (data : List Record) (S : Selection) (F : String) :
    (filterRecords S data).length ≤ (filterRecords (Obj.delete S F) data).length := by
  unfold filterRecords
  rw [← List.countP_eq_length_filter, ← List.countP_eq_length_filter]
  refine List.countP_mono_left fun r _ h => ?_
  refine passesFilters_mono (Obj.delete S F) S ?_ ?_ r h
  · rintro F' ⟨selected, hsel⟩
    rw [Obj.get_delete] at hsel
    by_cases hF : F = F'
    · simp [hF] at hsel
    · rw [if_neg hF] at hsel
      exact ⟨selected, hsel⟩
  · rintro F' v ⟨selected, hsel⟩ ⟨selected', hsel', hmem⟩
    rw [Obj.get_delete] at hsel
    by_cases hF : F = F'
    · simp [hF] at hsel
    · rw [if_neg hF] at hsel
      rw [hsel] at hsel'
      cases hsel'
      exact ⟨selected, by rw [Obj.get_delete, if_neg hF]; exact hsel, hmem⟩

/-! ## Facts about the reset handler -/

theorem foldl_modifyBtn_get (f : FilterBtn → FilterBtn) (hf : ∀ b, f (f b) = f b)
    (ps : List BtnRef) :
    ∀ (d : Document) (q : BtnRef),
      getBtn (ps.foldl (fun d btn => modifyBtn d btn f) d) q =
        if q ∈ ps then (getBtn d q).map f else getBtn d q := by
  induction ps with
  | nil => intro d q; simp
  | cons p ps ih =>
    intro d q
    rw [List.foldl_cons, ih (modifyBtn d p f) q, getBtn_modifyBtn]
    by_cases hq : q ∈ ps
    · by_cases hp : p = q
      · subst hp
        simp only [hq, if_true, List.mem_cons, true_or, Option.map_map]
        cases getBtn d p <;> simp [hf]
      · simp [hq, hp]
    · by_cases hp : p = q
      · simp [hq, hp]
      · have : q ≠ p := fun e => hp e.symm
        simp [hq, hp, this]

/-- After the reset loop no button is active. -/
theorem reset_inactive (doc : Document) (q : BtnRef) (b : FilterBtn)
    (hb : getBtn ((activeFilterBtns doc).foldl (fun d btn => modifyBtn d btn removeActive) doc)
      q = some b) : b.active = false := by
  rw [foldl_modifyBtn_get removeActive (fun _ => rfl)] at hb
  by_cases hq : q ∈ activeFilterBtns doc
  · rw [if_pos hq] at hb
    cases hd : getBtn doc q with
    | none => simp [hd] at hb
    | some b₀ =>
      simp only [hd, Option.map_some', Option.some.injEq] at hb
      rw [← hb]
      rfl
  · rw [if_neg hq] at hb
    have hmem : q ∈ allFilterBtns doc := (mem_allFilterBtns doc q).2 ⟨b, hb⟩
    by_contra hact
    apply hq
    unfold activeFilterBtns
    rw [List.mem_filter]
    refine ⟨hmem, ?_⟩
    simp only [hb]
    simpa using hact

theorem collect_nil_of_inactive (d : Document)
    (h : ∀ q b, getBtn d q = some b → b.active = false) : collectActiveFilters d = [] := by
  have hgroups : ∀ g ∈ d, activeValues g = [] := by
    intro g hg
    obtain ⟨i, hi⟩ := List.mem_iff_getElem?.1 hg
    unfold activeValues
    rw [List.map_eq_nil_iff, List.filter_eq_nil_iff]
    intro b hb
    obtain ⟨j, hj⟩ := List.mem_iff_getElem?.1 hb
    have : getBtn d (i, j) = some b := by
      unfold getBtn
      simp only [hi, hj]
    simp [h (i, j) b this]
  unfold collectActiveFilters
  have hfold : ∀ (l : List FilterGroup) (acc : Selection), (∀ g ∈ l, activeValues g = []) →
      l.foldl
          (fun acc filterGroup =>
            if (activeValues filterGroup).length > 0 then
              Obj.set acc filterGroup.filterKey (activeValues filterGroup)
            else acc)
          acc = acc := by
    intro l
    induction l with
    | nil => intro acc _; rfl
    | cons g rest ih =>
      intro acc hl
      rw [List.foldl_cons, hl g (List.mem_cons_self _ _)]
      simp only [List.length_nil, gt_iff_lt, lt_self_iff_false, if_false]
      exact ih acc fun g' hg' => hl g' (List.mem_cons_of_mem _ hg')
  exact hfold d [] hgroups

theorem filterRecords_nil (data : List Record) : filterRecords [] data = data := by
  unfold filterRecords
  rw [List.filter_eq_self]
  intro r _
  rfl

/-! ## Claim on the reset action -/

/-- C12: from every state of the page (any active buttons, any sort state) the
reset action leaves no button active, so the selection collected is empty and the
filter keeps every record of both datasets. For datasets in which every paper
has a `DOI_URL` and every tool a `Link` (rendering throws otherwise) the action
completes: no button is active, each table shows all records of its dataset (a
permutation of it, in the order `applyFilters` chooses), as many rows as the
dataset has records, and each count element present reads "Showing all n ..."
for a dataset of n > 0 records. -/
theorem C12_reset_shows_everything (toLowerCase : String → String)
    (originalResearchData originalToolsData : List Record) (currentSort : SortState)
    (activeTab : String) (page : Page) :
    (∀ q b,
        getBtn
            ((activeFilterBtns page.doc).foldl (fun d btn => modifyBtn d btn removeActive)
              page.doc) q = some b →
          b.active = false) ∧
      collectActiveFilters
          ((activeFilterBtns page.doc).foldl (fun d btn => modifyBtn d btn removeActive)
            page.doc) = [] ∧
      filterRecords
          (collectActiveFilters
            ((activeFilterBtns page.doc).foldl (fun d btn => modifyBtn d btn removeActive)
              page.doc))
          originalResearchData = originalResearchData ∧
      filterRecords
          (collectActiveFilters
            ((activeFilterBtns page.doc).foldl (fun d btn => modifyBtn d btn removeActive)
              page.doc))
          originalToolsData = originalToolsData ∧
      ((∀ r ∈ originalResearchData, (Obj.get r "DOI_URL").isSome = true) →
        (∀ r ∈ originalToolsData, (Obj.get r "Link").isSome = true) →
        ∃ page',
          resetFilters toLowerCase originalResearchData originalToolsData currentSort activeTab
              page = some page' ∧
            (∀ q b, getBtn page'.doc q = some b → b.active = false) ∧
            collectActiveFilters page'.doc = [] ∧
            page'.papersBody = sortedResearchData toLowerCase currentSort originalResearchData ∧
            page'.toolsBody = sortedToolsData toLowerCase currentSort originalToolsData ∧
            page'.papersBody.Perm originalResearchData ∧
            page'.toolsBody.Perm originalToolsData ∧
            page'.papersBody.length = originalResearchData.length ∧
            page'.toolsBody.length = originalToolsData.length ∧
            page'.researchCount =
              page.researchCount.map (fun _ =>
                countText false originalResearchData.length originalResearchData.length) ∧
            page'.toolsCount =
              page.toolsCount.map (fun _ =>
                countText true originalToolsData.length originalToolsData.length) ∧
            (originalResearchData ≠ [] →
              countText false originalResearchData.length originalResearchData.length =
                "Showing all " ++ toString originalResearchData.length ++ " papers") ∧
            (originalToolsData ≠ [] →
              countText true originalToolsData.length originalToolsData.length =
                "Showing all " ++ toString originalToolsData.length ++ " tools")) := by
  have hinact := reset_inactive page.doc
  have hnil := collect_nil_of_inactive _ hinact
  refine ⟨hinact, hnil, by rw [hnil, filterRecords_nil], by rw [hnil, filterRecords_nil], ?_⟩
  intro hR hT
  have hview := (updateFold_spec originalResearchData originalToolsData activeTab
    ((activeFilterBtns page.doc).foldl (fun d btn => modifyBtn d btn removeActive) page.doc)
    (allFilterBtns
      ((activeFilterBtns page.doc).foldl (fun d btn => modifyBtn d btn removeActive) page.doc))
    _ rfl).1
  have hpR := sortedResearchData_perm toLowerCase currentSort originalResearchData
  have hpT := sortedToolsData_perm toLowerCase currentSort originalToolsData
  have hok : resetFilters toLowerCase originalResearchData originalToolsData currentSort
      activeTab page = _ :=
    applyFilters_ok toLowerCase _ _ currentSort activeTab
      { page with
        doc := (activeFilterBtns page.doc).foldl (fun d btn => modifyBtn d btn removeActive)
          page.doc } hR hT
  refine ⟨_, hok, ?_, ?_, ?_, ?_, ?_, ?_, ?_, ?_, ?_, ?_, ?_, ?_⟩
  · intro q b hb
    simp only at hb
    have hv := (view_getBtn _ _ hview q).2
    change (getBtn (updateDisabledButtons originalResearchData originalToolsData activeTab
      ((activeFilterBtns page.doc).foldl (fun d btn => modifyBtn d btn removeActive) page.doc))
      q).map btnView = _ at hv
    rw [hb] at hv
    cases hd : getBtn
        ((activeFilterBtns page.doc).foldl (fun d btn => modifyBtn d btn removeActive) page.doc)
        q with
    | none => simp [hd] at hv
    | some b₀ =>
      simp only [hd, Option.map_some', Option.some.injEq] at hv
      have h1 : b.active = b₀.active := congrArg Prod.snd hv
      rw [h1]
      exact hinact q b₀ hd
  · simp only
    rw [← hnil]
    exact collectActiveFilters_congr _ _ hview
  · simp only [hnil, filterRecords_nil]
  · simp only [hnil, filterRecords_nil]
  · simp only [hnil, filterRecords_nil]
    exact hpR
  · simp only [hnil, filterRecords_nil]
    exact hpT
  · simp only [hnil, filterRecords_nil]
    exact hpR.length_eq
  · simp only [hnil, filterRecords_nil]
    exact hpT.length_eq
  · simp only [hnil, filterRecords_nil, hpR.length_eq]
  · simp only [hnil, filterRecords_nil, hpT.length_eq]
  · intro hne
    have : originalResearchData.length ≠ 0 := fun h => hne (List.length_eq_zero.1 h)
    simp only [countText, this, if_false, if_true, Bool.false_eq_true]
    rw [String.append_assoc]
    rfl
  · intro hne
    have : originalToolsData.length ≠ 0 := fun h => hne (List.length_eq_zero.1 h)
    simp only [countText, this, if_false, if_true]
    rw [String.append_assoc]
    rfl

/-- Witness for C12: two active buttons, one paper and one tool. -/
theorem C12_reset_shows_everything_witness :
    ∃ page',
      resetFilters asciiLower [[("Author", "Smith"), ("DOI_URL", "https://doi.org/1")]]
          [[("Name", "Miro"), ("Link", "https://miro.com")]]
          ⟨some "papers-table", some "Year", false⟩ "papers-tab"
          ⟨[⟨"F", [⟨"A", true, false, false, false, ""⟩, ⟨"B", true, false, false, false, ""⟩]⟩],
            [], [], some "", some "", false, false⟩ = some page' ∧
        (∀ q b, getBtn page'.doc q = some b → b.active = false) ∧
        page'.papersBody.length = 1 ∧ page'.toolsBody.length = 1 ∧
        page'.researchCount = some "Showing all 1 papers" :=
  match (C12_reset_shows_everything asciiLower
      [[("Author", "Smith"), ("DOI_URL", "https://doi.org/1")]]
      [[("Name", "Miro"), ("Link", "https://miro.com")]]
      ⟨some "papers-table", some "Year", false⟩ "papers-tab"
      ⟨[⟨"F", [⟨"A", true, false, false, false, ""⟩, ⟨"B", true, false, false, false, ""⟩]⟩],
        [], [], some "", some "", false, false⟩).2.2.2.2 (by decide) (by decide) with
  | ⟨page', h1, h2, _, _, _, _, _, h8, h9, h10, _, _, _⟩ =>
    ⟨page', h1, h2, h8, h9, by rw [h10]; rfl⟩

end Script
